import Mathlib

/-!
Verification of the Routing & Failover Engine of the smart-route AI gateway
(`backend/router_engine.py`) against its natural-language specification.

The Python source is shallowly embedded: floats that carry exact spec-level
arithmetic (failure scores, penalties, wall-clock instants) are modelled as
rationals, Python `str` as Lean `String`/`List Char`, JSON values as an
inductive type, and the stream/loop control flow as explicit folds and
recursions.  Every definition follows the corresponding Python function;
deviations forced by totality are noted in comments at the definition.
-/

set_option maxHeartbeats 1000000
set_option maxRecDepth 100000

namespace RouterEngine

/-! ## String utilities (Python `in`, `startswith`, `strip`)

`pyIn needle hay` is Python's substring test `needle in hay`, implemented on
the character lists.  `listPrefixOf` is `startswith`. -/

def listPrefixOf : List Char → List Char → Bool
  | [], _ => true
  | _ :: _, [] => false
  | a :: as, b :: bs => a = b && listPrefixOf as bs

def listHas (n : List Char) : List Char → Bool
  | [] => listPrefixOf n []
  | c :: t => listPrefixOf n (c :: t) || listHas n t

def pyIn (needle hay : String) : Bool := listHas needle.data hay.data

theorem listPrefixOf_nil (n : List Char) : listPrefixOf n [] = true ↔ n = [] := by
  cases n <;> simp [listPrefixOf]

theorem listHas_of_prefixOf {n h : List Char} (hp : listPrefixOf n h = true) :
    listHas n h = true := by
  cases h with
  | nil => simpa [listHas] using hp
  | cons c t => simp [listHas, hp]

theorem listPrefixOf_append {n a : List Char} (b : List Char)
    (hp : listPrefixOf n a = true) : listPrefixOf n (a ++ b) = true := by
  induction n generalizing a with
  | nil => simp [listPrefixOf]
  | cons x xs ih =>
    cases a with
    | nil => simp [listPrefixOf] at hp
    | cons y ys =>
      simp only [listPrefixOf, Bool.and_eq_true, decide_eq_true_eq] at hp
      simp [listPrefixOf, hp.1, ih hp.2]

theorem listHas_append_left {n a : List Char} (b : List Char)
    (h : listHas n a = true) : listHas n (a ++ b) = true := by
  induction a with
  | nil =>
    simp only [listHas] at h
    exact listHas_of_prefixOf (listPrefixOf_append b h)
  | cons c t ih =>
    simp only [listHas, Bool.or_eq_true] at h ⊢
    rcases h with h | h
    · exact Or.inl (listPrefixOf_append b h)
    · exact Or.inr (ih h)

theorem listHas_append_right (n a : List Char) {b : List Char}
    (h : listHas n b = true) : listHas n (a ++ b) = true := by
  induction a with
  | nil => simpa using h
  | cons c t ih => simp [listHas, ih]

/-- A substring occurrence only uses characters of the haystack. -/
theorem mem_of_listPrefixOf {n h : List Char} (hp : listPrefixOf n h = true) :
    ∀ c ∈ n, c ∈ h := by
  induction n generalizing h with
  | nil => intro c hc; cases hc
  | cons x xs ih =>
    cases h with
    | nil => simp [listPrefixOf] at hp
    | cons y ys =>
      simp only [listPrefixOf, Bool.and_eq_true, decide_eq_true_eq] at hp
      intro c hc
      rcases List.mem_cons.mp hc with rfl | hc
      · simp [hp.1]
      · exact List.mem_cons_of_mem _ (ih hp.2 c hc)

theorem mem_of_listHas {n h : List Char} (hh : listHas n h = true) :
    ∀ c ∈ n, c ∈ h := by
  induction h with
  | nil =>
    simp only [listHas] at hh
    rcases (listPrefixOf_nil n).mp hh with rfl
    intro c hc; cases hc
  | cons y ys ih =>
    simp only [listHas, Bool.or_eq_true] at hh
    intro c hc
    rcases hh with hh | hh
    · exact mem_of_listPrefixOf hh c hc
    · exact List.mem_cons_of_mem _ (ih hh c hc)

/-- If every character of the needle satisfies `P` and no character of the
haystack does, there is no occurrence. -/
theorem listHas_eq_false_of_disjoint {n h : List Char} {P : Char → Prop}
    (hn : ∃ c ∈ n, P c) (hh : ∀ c ∈ h, ¬ P c) : listHas n h = false := by
  by_contra hcontra
  rcases hn with ⟨c, hc, hPc⟩
  have := mem_of_listHas (by simpa using hcontra) c hc
  exact hh c this hPc

/-- A prefix occurrence of an all-`P` needle cannot reach past a non-`P`
separator character. -/
theorem listPrefixOf_append_sep {n x y : List Char} {s : Char} {P : Char → Prop}
    (hn : ∀ c ∈ n, P c) (hs : ¬ P s) :
    listPrefixOf n (x ++ s :: y) = listPrefixOf n x := by
  induction n generalizing x with
  | nil => simp [listPrefixOf]
  | cons a as ih =>
    cases x with
    | nil =>
      simp only [List.nil_append, listPrefixOf]
      have : (a = s) = False := by
        simp only [eq_iff_iff, iff_false]
        intro hEq; exact hs (hEq ▸ hn a (by simp))
      simp [this]
    | cons b bs =>
      simp only [List.cons_append, listPrefixOf, List.append_eq]
      rw [ih (fun c hc => hn c (List.mem_cons_of_mem _ hc))]

/-- Occurrences of an all-`P` needle cannot cross a non-`P` separator:
searching `x ++ s :: y` is searching `x` or searching `y`. -/
theorem listHas_append_sep {n x y : List Char} {s : Char} {P : Char → Prop}
    (hn : ∀ c ∈ n, P c) (hs : ¬ P s) :
    listHas n (x ++ s :: y) = (listHas n x || listHas n y) := by
  induction x with
  | nil =>
    cases n with
    | nil => simp [listHas, listPrefixOf]
    | cons a as =>
      simp only [List.nil_append, listHas]
      have : (a = s) = False := by
        simp only [eq_iff_iff, iff_false]
        intro hEq; exact hs (hEq ▸ hn a (by simp))
      simp [listPrefixOf, this]
  | cons b bs ih =>
    have hp := listPrefixOf_append_sep (x := b :: bs) (y := y) hn hs
    simp only [List.cons_append] at hp
    simp only [List.cons_append, listHas, List.append_eq, ih, hp, Bool.or_assoc]

/-! ## HealthStore (`_get_model_stats`, `_refresh_stats`, `_record_success`,
`_record_failure`)

Python floats become rationals; `time.time()` instants are passed explicitly
as the `now` argument of each operation. -/

structure Stats where
  failures : Nat
  success : Nat
  failure_score : ℚ
  cooldown_until : ℚ
  last_updated : ℚ
deriving DecidableEq

/-- Python `int()` on a rational: truncation toward zero. -/
def pyInt (q : ℚ) : ℤ := if 0 ≤ q then ⌊q⌋ else ⌈q⌉

/-- `_get_model_stats`: the derived `health_score` field.
`0` while `cooldown_until > now`, else `int(100.0 / (1.0 + fs * 0.2))`. -/
def healthScore (s : Stats) (now : ℚ) : ℤ :=
  if now < s.cooldown_until then 0
  else pyInt (100 / (1 + s.failure_score * (1/5)))

/-- `_refresh_stats`: time decay of `failure_score`. -/
def refreshStats (s : Stats) (now decayRate : ℚ) : Stats :=
  let elapsedMin := (now - s.last_updated) / 60
  if 1/10 < elapsedMin then
    let decayAmount := elapsedMin * decayRate
    let s' := if 0 < s.failure_score
      then { s with failure_score := max 0 (s.failure_score - decayAmount) }
      else s
    { s' with last_updated := now }
  else s

/-- `_record_success`. -/
def recordSuccess (s : Stats) (now decayRate : ℚ) : Stats :=
  let s := refreshStats s now decayRate
  let s := { s with success := s.success + 1, cooldown_until := 0 }
  let s := if 0 < s.failure_score
    then { s with failure_score := max 0 (s.failure_score - 2) }
    else s
  { s with last_updated := now }

/-- `_record_failure`. -/
def recordFailure (s : Stats) (now decayRate penalty cooldownSeconds : ℚ) : Stats :=
  let s := refreshStats s now decayRate
  let s := { s with failures := s.failures + 1,
                    failure_score := s.failure_score + penalty }
  let s := if 0 < cooldownSeconds
    then { s with cooldown_until := now + cooldownSeconds }
    else s
  { s with last_updated := now }

/-- One HealthStore operation on a single model's entry. -/
inductive HOp where
  | refresh (now decayRate : ℚ)
  | succeed (now decayRate : ℚ)
  | fail (now decayRate penalty cooldownSeconds : ℚ)
deriving DecidableEq

def applyHOp (s : Stats) : HOp → Stats
  | .refresh now d => refreshStats s now d
  | .succeed now d => recordSuccess s now d
  | .fail now d p c => recordFailure s now d p c

def runHOps (s : Stats) (ops : List HOp) : Stats := ops.foldl applyHOp s

/-- The failure penalty passed to `_record_failure` is nonnegative: the
orchestrator only ever passes 0.5, 1.0, 10.0 or 50.0. -/
def hopPenaltyOk : HOp → Bool
  | .fail _ _ p _ => decide (0 ≤ p)
  | _ => true

theorem refreshStats_score_nonneg (s : Stats) (now d : ℚ)
    (h : 0 ≤ s.failure_score) : 0 ≤ (refreshStats s now d).failure_score := by
  unfold refreshStats
  dsimp only
  split
  · split <;> simp [le_max_iff, h]
  · exact h

theorem refreshStats_counters (s : Stats) (now d : ℚ) :
    (refreshStats s now d).failures = s.failures ∧
    (refreshStats s now d).success = s.success := by
  unfold refreshStats
  dsimp only
  split
  · split <;> simp
  · simp

theorem recordSuccess_score_nonneg (s : Stats) (now d : ℚ)
    (h : 0 ≤ s.failure_score) : 0 ≤ (recordSuccess s now d).failure_score := by
  unfold recordSuccess
  dsimp only
  split
  · simp [le_max_iff]
  · simpa using refreshStats_score_nonneg s now d h

theorem recordFailure_score_nonneg (s : Stats) (now d p c : ℚ)
    (hs : 0 ≤ s.failure_score) (hp : 0 ≤ p) :
    0 ≤ (recordFailure s now d p c).failure_score := by
  unfold recordFailure
  dsimp only
  have := refreshStats_score_nonneg s now d hs
  split <;> simpa using add_nonneg this hp

theorem applyHOp_invariant (s : Stats) (op : HOp)
    (hs : 0 ≤ s.failure_score) (hop : hopPenaltyOk op = true) :
    0 ≤ (applyHOp s op).failure_score ∧
    s.failures ≤ (applyHOp s op).failures ∧
    s.success ≤ (applyHOp s op).success := by
  cases op with
  | refresh now d =>
    exact ⟨refreshStats_score_nonneg s now d hs,
      le_of_eq (refreshStats_counters s now d).1.symm,
      le_of_eq (refreshStats_counters s now d).2.symm⟩
  | succeed now d =>
    refine ⟨recordSuccess_score_nonneg s now d hs, ?_, ?_⟩ <;>
    · simp only [applyHOp]
      unfold recordSuccess
      dsimp only
      have hc := refreshStats_counters s now d
      split <;> simp [hc.1, hc.2]
  | fail now d p c =>
    have hp : 0 ≤ p := by simpa [hopPenaltyOk] using hop
    refine ⟨recordFailure_score_nonneg s now d p c hs hp, ?_, ?_⟩ <;>
    · simp only [applyHOp]
      unfold recordFailure
      dsimp only
      have hc := refreshStats_counters s now d
      split <;> simp [hc.1, hc.2]

theorem runHOps_invariant (s : Stats) (ops : List HOp)
    (hs : 0 ≤ s.failure_score) (hops : ∀ op ∈ ops, hopPenaltyOk op = true) :
    0 ≤ (runHOps s ops).failure_score ∧
    s.failures ≤ (runHOps s ops).failures ∧
    s.success ≤ (runHOps s ops).success := by
  induction ops generalizing s with
  | nil => exact ⟨hs, le_refl _, le_refl _⟩
  | cons op rest ih =>
    have h1 := applyHOp_invariant s op hs (hops op (by simp))
    have h2 := ih (applyHOp s op) h1.1 (fun o ho => hops o (by simp [ho]))
    exact ⟨h2.1, le_trans h1.2.1 h2.2.1, le_trans h1.2.2 h2.2.2⟩

theorem recordSuccess_clears_cooldown (s : Stats) (now d : ℚ) :
    (recordSuccess s now d).cooldown_until = 0 := by
  unfold recordSuccess
  dsimp only
  split <;> simp

/-- C6: for any model entry and any sequence of HealthStore operations
(refresh/decay, recordSuccess, recordFailure with the nonnegative penalties
the orchestrator passes), `failure_score` never becomes negative, the
`failures` and `success` counters never decrease, and any recordSuccess sets
`cooldown_until` to 0. -/
theorem health_invariants_C6 (s : Stats) (ops : List HOp)
    (hs : 0 ≤ s.failure_score) (hops : ∀ op ∈ ops, hopPenaltyOk op = true) :
    0 ≤ (runHOps s ops).failure_score ∧
    s.failures ≤ (runHOps s ops).failures ∧
    s.success ≤ (runHOps s ops).success ∧
    ∀ t now d, (recordSuccess t now d).cooldown_until = 0 := by
  obtain ⟨h1, h2, h3⟩ := runHOps_invariant s ops hs hops
  exact ⟨h1, h2, h3, recordSuccess_clears_cooldown⟩

/-- Witness for C6 at a concrete run: one failure (penalty 10, cooldown 60),
one success, one refresh. -/
theorem health_invariants_C6_witness :
    0 ≤ (runHOps ⟨2, 3, 4, 0, 0⟩
        [.fail 1 (1/20) 10 60, .succeed 70 (1/20), .refresh 200 (1/20)]).failure_score ∧
    (2 : Nat) ≤ (runHOps ⟨2, 3, 4, 0, 0⟩
        [.fail 1 (1/20) 10 60, .succeed 70 (1/20), .refresh 200 (1/20)]).failures ∧
    (3 : Nat) ≤ (runHOps ⟨2, 3, 4, 0, 0⟩
        [.fail 1 (1/20) 10 60, .succeed 70 (1/20), .refresh 200 (1/20)]).success ∧
    ∀ t now d, (recordSuccess t now d).cooldown_until = 0 :=
  health_invariants_C6 ⟨2, 3, 4, 0, 0⟩ _ (by norm_num) (by decide)

/-! ### C9: the derived health score -/

/-- Modelled from the spec's words, for comparison with the code's
`healthScore`: `health_score = round(100 / (1 + failure_score·0.2))`
(rounding to nearest), 0 while `now < cooldown_until`. -/
def healthScoreSpecRound (s : Stats) (now : ℚ) : ℤ :=
  if now < s.cooldown_until then 0
  else round ((100 : ℚ) / (1 + s.failure_score * (1/5)))

/-- C9 counterexample: at `failure_score = 0.5` (a value actually produced by
a single timeout penalty) and no cooldown, the code computes
`int(100/1.1) = 90`, while the claimed round-to-nearest gives 91. -/
theorem healthScore_not_round_C9 :
    healthScore ⟨0, 0, 1/2, 0, 0⟩ 1 = 90 ∧
    healthScoreSpecRound ⟨0, 0, 1/2, 0, 0⟩ 1 = 91 := by
  constructor
  · norm_num [healthScore, pyInt]
  · rw [healthScoreSpecRound, if_neg (by norm_num), round_eq]
    norm_num

/-- C9 (amended): the derived `health_score` equals
`⌊100 / (1 + failure_score·0.2)⌋` — truncation toward zero, which for the
nonnegative `failure_score` maintained by the store is the floor, not
round-to-nearest — when the model is not in cooldown, and equals 0 while
`now < cooldown_until`.  It always lies in `[0, 100]`. -/
theorem healthScore_floor_C9 (s : Stats) (now : ℚ) (hs : 0 ≤ s.failure_score) :
    healthScore s now =
      (if now < s.cooldown_until then 0
       else ⌊(100 : ℚ) / (1 + s.failure_score * (1/5))⌋) ∧
    0 ≤ healthScore s now ∧ healthScore s now ≤ 100 := by
  have hden : 0 < 1 + s.failure_score * (1/5) := by nlinarith
  have hq : (0 : ℚ) ≤ 100 / (1 + s.failure_score * (1/5)) := by positivity
  have hle : (100 : ℚ) / (1 + s.failure_score * (1/5)) ≤ 100 := by
    rw [div_le_iff₀ hden]; nlinarith
  have heq : healthScore s now =
      (if now < s.cooldown_until then 0
       else ⌊(100 : ℚ) / (1 + s.failure_score * (1/5))⌋) := by
    unfold healthScore pyInt
    split
    · rfl
    · simp [hq]
  refine ⟨heq, ?_, ?_⟩ <;> rw [heq]
  · split
    · norm_num
    · exact Int.floor_nonneg.mpr hq
  · split
    · norm_num
    · calc ⌊(100 : ℚ) / (1 + s.failure_score * (1/5))⌋
          ≤ ⌊(100 : ℚ)⌋ := Int.floor_le_floor hle
        _ = 100 := by norm_num

/-- Witness for the amended C9 at `failure_score = 3`, not in cooldown:
`int(100/1.6) = 62`. -/
theorem healthScore_floor_C9_witness :
    healthScore ⟨5, 7, 3, 0, 0⟩ 2 =
      (if (2 : ℚ) < (0 : ℚ) then 0 else ⌊(100 : ℚ) / (1 + 3 * (1/5))⌋) ∧
    0 ≤ healthScore ⟨5, 7, 3, 0, 0⟩ 2 ∧ healthScore ⟨5, 7, 3, 0, 0⟩ 2 ≤ 100 :=
  healthScore_floor_C9 ⟨5, 7, 3, 0, 0⟩ 2 (by norm_num)

/-! ## RoutingStrategy (`_get_sorted_models`)

`random.shuffle` is the Fisher–Yates loop
`for i in reversed(range(1, len(x))): j = randbelow(i+1); swap x[i], x[j]`;
the random draws are supplied by the oracle `g` (reduced mod `i+1`, which is
what `randbelow` guarantees).  `random.random()` draws for the adaptive
strategy are supplied by the oracle `r`, indexed by position, and the
(already refreshed) failure scores by `fs`.  Python's stable
`sort(..., reverse=True)` is the stable descending insertion sort below. -/

def listSwap {α : Type} (l : List α) (i j : Nat) : List α :=
  match l[i]?, l[j]? with
  | some a, some b => (l.set i b).set j a
  | _, _ => l

def shuffleAux {α : Type} (g : Nat → Nat) : List α → Nat → List α
  | l, 0 => l
  | l, i + 1 => shuffleAux g (listSwap l (i + 1) (g (i + 1) % (i + 2))) i

def pyShuffle {α : Type} (g : Nat → Nat) (l : List α) : List α :=
  shuffleAux g l (l.length - 1)

def insertDesc {α : Type} (x : ℚ × α) : List (ℚ × α) → List (ℚ × α)
  | [] => [x]
  | y :: ys => if y.1 < x.1 then x :: y :: ys else y :: insertDesc x ys

def sortDesc {α : Type} (l : List (ℚ × α)) : List (ℚ × α) :=
  l.foldl (fun acc x => insertDesc x acc) []

/-- The score list built by the `adaptive` branch:
`weight = 1/(1 + failure_score * 0.5)`, `score = random() * weight`. -/
def adaptiveScored (models : List String) (r : Nat → ℚ) (fs : String → ℚ) :
    List (ℚ × String) :=
  models.enum.map (fun p => (r p.1 * (1 / (1 + fs p.2 * (1/2))), p.2))

def getSortedModels (models : List String) (strategy : String)
    (g : Nat → Nat) (r : Nat → ℚ) (fs : String → ℚ) : List String :=
  if models = [] then []
  else if strategy = "sequential" then models
  else if strategy = "random" then pyShuffle g models
  else if strategy = "adaptive" then
    (sortDesc (adaptiveScored models r fs)).map Prod.snd
  else models

theorem perm_cons_set {α : Type} (t : List α) (j : Nat) (a b : α)
    (h : t[j]? = some b) : (b :: t.set j a).Perm (a :: t) := by
  induction t generalizing j with
  | nil => simp at h
  | cons c t' ih =>
    cases j with
    | zero =>
      simp only [List.getElem?_cons_zero, Option.some.injEq] at h
      subst h
      simpa using List.Perm.swap a c t'
    | succ k =>
      simp only [List.getElem?_cons_succ] at h
      have h1 : (b :: (c :: t').set (k + 1) a) = b :: c :: t'.set k a := by simp
      rw [h1]
      exact (List.Perm.swap c b (t'.set k a)).trans
        (((ih k h).cons c).trans (List.Perm.swap a c t'))

theorem listSwap_perm {α : Type} (l : List α) (i j : Nat) :
    (listSwap l i j).Perm l := by
  induction l generalizing i j with
  | nil => simp [listSwap]
  | cons x t ih =>
    cases i with
    | zero =>
      cases j with
      | zero => simp [listSwap]
      | succ k =>
        cases hk : t[k]? with
        | none => simp [listSwap, hk]
        | some b =>
          simp only [listSwap, List.getElem?_cons_zero, List.getElem?_cons_succ, hk,
            List.set_cons_zero, List.set_cons_succ]
          exact perm_cons_set t k x b hk
    | succ m =>
      cases j with
      | zero =>
        cases hm : t[m]? with
        | none => simp [listSwap, hm]
        | some a =>
          simp only [listSwap, List.getElem?_cons_zero, List.getElem?_cons_succ, hm,
            List.set_cons_zero, List.set_cons_succ]
          exact perm_cons_set t m x a hm
      | succ k =>
        cases hm : t[m]? with
        | none => simp [listSwap, hm]
        | some a =>
          cases hk : t[k]? with
          | none => simp [listSwap, hm, hk]
          | some b =>
            simp only [listSwap, List.getElem?_cons_succ, hm, hk,
              List.set_cons_succ]
            have := ih m k
            simp only [listSwap, hm, hk] at this
            exact this.cons x

theorem shuffleAux_perm {α : Type} (g : Nat → Nat) (l : List α) (n : Nat) :
    (shuffleAux g l n).Perm l := by
  induction n generalizing l with
  | zero => simp [shuffleAux]
  | succ i ih =>
    exact (ih (listSwap l (i + 1) (g (i + 1) % (i + 2)))).trans
      (listSwap_perm l (i + 1) (g (i + 1) % (i + 2)))

theorem pyShuffle_perm {α : Type} (g : Nat → Nat) (l : List α) :
    (pyShuffle g l).Perm l := shuffleAux_perm g l (l.length - 1)

theorem insertDesc_perm {α : Type} (x : ℚ × α) (l : List (ℚ × α)) :
    (insertDesc x l).Perm (x :: l) := by
  induction l with
  | nil => simp [insertDesc]
  | cons y ys ih =>
    simp only [insertDesc]
    split
    · exact List.Perm.refl _
    · exact (ih.cons y).trans (List.Perm.swap x y ys)

theorem sortDesc_perm {α : Type} (l : List (ℚ × α)) : (sortDesc l).Perm l := by
  have key : ∀ (l acc : List (ℚ × α)),
      (l.foldl (fun acc x => insertDesc x acc) acc).Perm (acc ++ l) := by
    intro l
    induction l with
    | nil => simp
    | cons x t ih =>
      intro acc
      have h1 := ih (insertDesc x acc)
      have h2 : (insertDesc x acc ++ t).Perm ((x :: acc) ++ t) :=
        (insertDesc_perm x acc).append_right t
      have h3 : ((x :: acc) ++ t).Perm (acc ++ x :: t) := List.perm_middle.symm
      exact h1.trans (h2.trans h3)
  simpa using key l []

/-- C10: for every model list and strategy name, the ordering returned by
`_get_sorted_models` is a permutation of the input, and for `sequential` as
well as for any unrecognised strategy name it is exactly the input order. -/
theorem routing_perm_C10 (models : List String) (strategy : String)
    (g : Nat → Nat) (r : Nat → ℚ) (fs : String → ℚ) :
    (getSortedModels models strategy g r fs).Perm models ∧
    (strategy = "sequential" → getSortedModels models strategy g r fs = models) ∧
    (strategy ≠ "sequential" → strategy ≠ "random" → strategy ≠ "adaptive" →
      getSortedModels models strategy g r fs = models) := by
  refine ⟨?_, ?_, ?_⟩
  · unfold getSortedModels
    split
    · rename_i h
      simp [h]
    · split
      · exact List.Perm.refl _
      · split
        · exact pyShuffle_perm g models
        · split
          · have hms : (adaptiveScored models r fs).map Prod.snd = models := by
              unfold adaptiveScored
              rw [List.map_map]
              have hcomp : (Prod.snd ∘
                  fun p : Nat × String =>
                    (r p.1 * (1 / (1 + fs p.2 * (1/2))), p.2)) =
                  (Prod.snd : Nat × String → String) := by
                funext p; rfl
              rw [hcomp, List.enum_map_snd]
            have hp := (sortDesc_perm (adaptiveScored models r fs)).map Prod.snd
            rw [hms] at hp
            exact hp
          · exact List.Perm.refl _
  · intro h
    unfold getSortedModels
    split
    · simp [*]
    · simp [h]
  · intro h1 h2 h3
    unfold getSortedModels
    split
    · simp [*]
    · simp [h1, h2, h3]

/-! ## Error classification in `route_request` (lines 766–847)

`_call_upstream` signals failures as exceptions whose message strings are
fixed templates with the upstream status code and response body spliced in;
`route_request` then classifies by *substring tests on the whole message*
(`"401" in error_msg`, …).  Bodies and keywords are `List Char` here; status
codes are the `Nat` that Python formats with `str()` (= `Nat.repr`). -/

inductive UpErr where
  | ttftTimeout (secRepr : List Char)
  | totalTimeout
  | connectTimeout
  | statusCode (code : Nat) (body : List Char)
  | keywordMatch (kw body : List Char)
  | emptyResp
  | upstreamErr (code : Nat) (body : List Char)
  | upstreamRetryable (code : Nat) (body : List Char)

/-- The exception message raised by `_call_upstream` for each failure kind. -/
def errMsg : UpErr → List Char
  | .ttftTimeout t => "TTFT Timeout (Headers) > ".data ++ t ++ ['s']
  | .totalTimeout => "Total Timeout (Read): Read timeout from upstream".data
  | .connectTimeout => "Connect Timeout: Connect timeout to upstream".data
  | .statusCode c b => "Status Code Error: ".data ++ (Nat.repr c).data ++ " - ".data ++ b
  | .keywordMatch kw b => "Error Keyword Match: ".data ++ kw ++ " in ".data ++ b
  | .emptyResp => "Empty Response: Upstream returned empty content and no tool calls".data
  | .upstreamErr c b => "Upstream Error: ".data ++ (Nat.repr c).data ++ " - ".data ++ b
  | .upstreamRetryable c b =>
      "Upstream Error (Retryable): ".data ++ (Nat.repr c).data ++ " - ".data ++ b

/-- `hard`: added to `excluded_models` (whole request); `soft`: added to
`round_failed_models` (this round only); `keep`: added to neither. -/
inductive Verdict where
  | hard
  | soft
  | keep
deriving DecidableEq

/-- The `elif` chain at the end of the failure handler in `route_request`. -/
def classifyExclusion (m : List Char) : Verdict :=
  if listHas "401".data m || listHas "403".data m || listHas "404".data m then .hard
  else if listHas "429".data m then .hard
  else if listHas "Error Keyword Match".data m || listHas "Status Code Error".data m then .soft
  else if listHas "503".data m || listHas "Timeout".data m then .soft
  else .keep

/-- Modelled from the claim's words, for comparison: hard-exclusion happens
iff the attempt's error is an auth error (401/403), a not-found error (404)
or a rate-limit error (429) — i.e. carries one of those status codes. -/
def specHardExclude : UpErr → Bool
  | .statusCode c _ => c = 401 || c = 403 || c = 404 || c = 429
  | .upstreamErr c _ => c = 401 || c = 403 || c = 404 || c = 429
  | .upstreamRetryable c _ => c = 401 || c = 403 || c = 404 || c = 429
  | _ => false

/-- The code's actual hard-exclusion rule, expressed on the structured error
(valid when bodies are benign, see `cleanErr`). -/
def amendedHard : UpErr → Bool
  | .statusCode c _ => c = 401 || c = 403 || c = 404 || c = 429
  | .upstreamErr c _ => c = 401 || c = 403 || c = 404 || c = 429
  | .upstreamRetryable c _ => c = 401 || c = 403 || c = 404 || c = 429
  | _ => false

/-- The code's actual soft-exclusion (round-skip) rule on the structured
error, for errors that are not hard-excluded: keyword matches and
openai-path status-code errors (via their marker phrases), all timeouts
(via the substring `Timeout`), and any other error carrying code 503.
Note the v1-messages retryable error (`Upstream Error (Retryable)`), and
empty responses, are *not* round-skipped unless the code is 503. -/
def amendedSoft : UpErr → Bool
  | .ttftTimeout _ => true
  | .totalTimeout => true
  | .connectTimeout => true
  | .statusCode _ _ => true
  | .keywordMatch _ _ => true
  | .emptyResp => false
  | .upstreamErr c _ => c = 503
  | .upstreamRetryable c _ => c = 503

/-- A benign text fragment: lowercase ASCII letters and spaces only, so it
cannot collide with the code digits or marker phrases the classifier greps
for. -/
def benignChars : List Char := " abcdefghijklmnopqrstuvwxyz".data

def benignChar (c : Char) : Bool := decide (c ∈ benignChars)

/-- Cleanliness of an error's variable parts: status codes are three-digit,
bodies/keywords benign, and the formatted timeout seconds (digits and dots)
do not contain a hot code as a substring. -/
def cleanErr : UpErr → Prop
  | .ttftTimeout t => (∀ ch ∈ t, ch.isDigit = true ∨ ch = '.') ∧
      listHas "401".data t = false ∧ listHas "403".data t = false ∧
      listHas "404".data t = false ∧ listHas "429".data t = false
  | .totalTimeout => True
  | .connectTimeout => True
  | .statusCode c b => 100 ≤ c ∧ c < 1000 ∧ (∀ ch ∈ b, benignChar ch = true)
  | .keywordMatch kw b => (∀ ch ∈ kw, benignChar ch = true) ∧
      (∀ ch ∈ b, benignChar ch = true)
  | .emptyResp => True
  | .upstreamErr c b => 100 ≤ c ∧ c < 1000 ∧ (∀ ch ∈ b, benignChar ch = true)
  | .upstreamRetryable c b => 100 ≤ c ∧ c < 1000 ∧ (∀ ch ∈ b, benignChar ch = true)

theorem listHas_eq_false_of_not_mem {n h : List Char} {c : Char}
    (hc : c ∈ n) (hh : c ∉ h) : listHas n h = false := by
  by_contra hcontra
  exact hh (mem_of_listHas (by simpa using hcontra) c hc)

/-- Three-digit code representations: they are all digits, and contain one of
the hot code strings exactly when they are that code. -/
theorem reprFacts : ∀ c : Nat, c < 1000 → 100 ≤ c →
    ((∀ ch ∈ (Nat.repr c).data, ch.isDigit = true) ∧
     listHas "401".data (Nat.repr c).data = decide (c = 401) ∧
     listHas "403".data (Nat.repr c).data = decide (c = 403) ∧
     listHas "404".data (Nat.repr c).data = decide (c = 404) ∧
     listHas "429".data (Nat.repr c).data = decide (c = 429) ∧
     listHas "503".data (Nat.repr c).data = decide (c = 503)) := by decide

theorem listHas_nil_eq_false {dn : List Char} (h : dn ≠ []) :
    listHas dn [] = false := by
  cases dn with
  | nil => exact absurd rfl h
  | cons c t => simp [listHas, listPrefixOf]

/-- All-digit needles cannot occur in a code message outside the code's
decimal representation. -/
theorem hasdn_codeMsg {dn : List Char} (pre : List Char) (c : Nat) (b : List Char)
    (hdn : ∀ ch ∈ dn, ch.isDigit = true) (hdnne : dn ≠ [])
    (hpre : ∀ ch ∈ pre, ch.isDigit = false)
    (hb : ∀ ch ∈ b, ch.isDigit = false) :
    listHas dn (pre ++ ' ' :: ((Nat.repr c).data ++ ' ' :: '-' :: ' ' :: b)) =
      listHas dn (Nat.repr c).data := by
  have hsp : ¬ ((' ' : Char).isDigit = true) := by decide
  have hdash : ¬ (('-' : Char).isDigit = true) := by decide
  obtain ⟨x, hx⟩ := List.exists_mem_of_ne_nil dn hdnne
  have hnP : ∃ ch ∈ dn, ch.isDigit = true := ⟨x, hx, hdn x hx⟩
  have h1 : listHas dn pre = false :=
    listHas_eq_false_of_disjoint hnP (fun ch hch => by simp [hpre ch hch])
  have hbf : listHas dn b = false :=
    listHas_eq_false_of_disjoint hnP (fun ch hch => by simp [hb ch hch])
  have hnilf : listHas dn [] = false := listHas_nil_eq_false hdnne
  rw [listHas_append_sep hdn hsp, h1]
  rw [listHas_append_sep hdn hsp]
  have h3 : listHas dn ('-' :: ' ' :: b) = false := by
    have e1 : ('-' :: ' ' :: b) = [] ++ '-' :: (' ' :: b) := rfl
    rw [e1, listHas_append_sep hdn hdash, hnilf]
    have e2 : (' ' :: b) = [] ++ ' ' :: b := rfl
    rw [e2, listHas_append_sep hdn hsp, hnilf, hbf]
    rfl
  rw [h3]
  simp

/-- All-digit needles do not occur in a keyword-match message with benign
keyword and body. -/
theorem hasdn_kwMsg {dn : List Char} (pre kw b : List Char)
    (hdn : ∀ ch ∈ dn, ch.isDigit = true) (hdnne : dn ≠ [])
    (hpre : ∀ ch ∈ pre, ch.isDigit = false)
    (hkw : ∀ ch ∈ kw, ch.isDigit = false)
    (hb : ∀ ch ∈ b, ch.isDigit = false) :
    listHas dn (pre ++ ' ' :: (kw ++ ' ' :: 'i' :: 'n' :: ' ' :: b)) = false := by
  have hsp : ¬ ((' ' : Char).isDigit = true) := by decide
  have hi : ¬ (('i' : Char).isDigit = true) := by decide
  have hn : ¬ (('n' : Char).isDigit = true) := by decide
  obtain ⟨x, hx⟩ := List.exists_mem_of_ne_nil dn hdnne
  have hnP : ∃ ch ∈ dn, ch.isDigit = true := ⟨x, hx, hdn x hx⟩
  have h1 : listHas dn pre = false :=
    listHas_eq_false_of_disjoint hnP (fun ch hch => by simp [hpre ch hch])
  have h2 : listHas dn kw = false :=
    listHas_eq_false_of_disjoint hnP (fun ch hch => by simp [hkw ch hch])
  have hbf : listHas dn b = false :=
    listHas_eq_false_of_disjoint hnP (fun ch hch => by simp [hb ch hch])
  have hnilf : listHas dn [] = false := listHas_nil_eq_false hdnne
  rw [listHas_append_sep hdn hsp, h1, listHas_append_sep hdn hsp, h2]
  have h3 : listHas dn ('i' :: 'n' :: ' ' :: b) = false := by
    have e1 : ('i' :: 'n' :: ' ' :: b) = [] ++ 'i' :: ('n' :: ' ' :: b) := rfl
    rw [e1, listHas_append_sep hdn hi, hnilf]
    have e2 : ('n' :: ' ' :: b) = [] ++ 'n' :: (' ' :: b) := rfl
    rw [e2, listHas_append_sep hdn hn, hnilf]
    have e3 : (' ' :: b) = [] ++ ' ' :: b := rfl
    rw [e3, listHas_append_sep hdn hsp, hnilf, hbf]
    rfl
  rw [h3]
  rfl

theorem benign_no_digit : ∀ c ∈ benignChars, c.isDigit = false := by decide

theorem benign_not_digit {b : List Char} (hb : ∀ ch ∈ b, benignChar ch = true) :
    ∀ ch ∈ b, ch.isDigit = false := by
  intro ch hch
  have hmem : ch ∈ benignChars := of_decide_eq_true (hb ch hch)
  exact benign_no_digit ch hmem

theorem benign_not_mem {b : List Char} {x : Char}
    (hb : ∀ ch ∈ b, benignChar ch = true) (hx : benignChar x = false) :
    x ∉ b := by
  intro hmem
  rw [hb x hmem] at hx
  cases hx

theorem notMem_codeMsg {x : Char} {pre b : List Char} {c : Nat}
    (hxpre : x ∉ pre) (hxd : x.isDigit = false)
    (hxsp : x ≠ ' ') (hxdash : x ≠ '-')
    (hrd : ∀ ch ∈ (Nat.repr c).data, ch.isDigit = true)
    (hxb : x ∉ b) :
    x ∉ (pre ++ ' ' :: ((Nat.repr c).data ++ ' ' :: '-' :: ' ' :: b)) := by
  intro hmem
  rcases List.mem_append.mp hmem with h | h
  · exact hxpre h
  rcases List.mem_cons.mp h with h | h
  · exact hxsp h
  rcases List.mem_append.mp h with h | h
  · rw [hrd x h] at hxd; cases hxd
  rcases List.mem_cons.mp h with h | h
  · exact hxsp h
  rcases List.mem_cons.mp h with h | h
  · exact hxdash h
  rcases List.mem_cons.mp h with h | h
  · exact hxsp h
  · exact hxb h

theorem notMem_kwMsg {x : Char} {pre kw b : List Char}
    (hxpre : x ∉ pre) (hxsp : x ≠ ' ') (hxi : x ≠ 'i') (hxn : x ≠ 'n')
    (hxkw : x ∉ kw) (hxb : x ∉ b) :
    x ∉ (pre ++ ' ' :: (kw ++ ' ' :: 'i' :: 'n' :: ' ' :: b)) := by
  intro hmem
  rcases List.mem_append.mp hmem with h | h
  · exact hxpre h
  rcases List.mem_cons.mp h with h | h
  · exact hxsp h
  rcases List.mem_append.mp h with h | h
  · exact hxkw h
  rcases List.mem_cons.mp h with h | h
  · exact hxsp h
  rcases List.mem_cons.mp h with h | h
  · exact hxi h
  rcases List.mem_cons.mp h with h | h
  · exact hxn h
  rcases List.mem_cons.mp h with h | h
  · exact hxsp h
  · exact hxb h

theorem notMem_ttftMsg {x : Char} {pre t : List Char}
    (hxpre : x ∉ pre) (hxsp : x ≠ ' ') (hxs : x ≠ 's') (hxt : x ∉ t) :
    x ∉ (pre ++ ' ' :: (t ++ 's' :: [])) := by
  intro hmem
  rcases List.mem_append.mp hmem with h | h
  · exact hxpre h
  rcases List.mem_cons.mp h with h | h
  · exact hxsp h
  rcases List.mem_append.mp h with h | h
  · exact hxt h
  rcases List.mem_cons.mp h with h | h
  · exact hxs h
  · cases h

/-- `classifyExclusion` on an openai-path status-code error with a clean
code and benign body: hard for 401/403/404/429, soft (via the
`Status Code Error` marker phrase) otherwise. -/
theorem classify_statusCode (c : Nat) (b : List Char) (hc1 : 100 ≤ c)
    (hc2 : c < 1000) (hb : ∀ ch ∈ b, benignChar ch = true) :
    classifyExclusion (errMsg (.statusCode c b)) =
      (if c = 401 ∨ c = 403 ∨ c = 404 ∨ c = 429 then .hard else .soft) := by
  obtain ⟨hrd, h401, h403, h404, h429, _⟩ := reprFacts c hc2 hc1
  have hbd := benign_not_digit hb
  have hpre : ∀ ch ∈ "Status Code Error:".data, ch.isDigit = false := by decide
  have hshape : errMsg (.statusCode c b) =
      "Status Code Error:".data ++ ' ' ::
        ((Nat.repr c).data ++ ' ' :: '-' :: ' ' :: b) := by
    show "Status Code Error: ".data ++ (Nat.repr c).data ++ " - ".data ++ b = _
    rw [show "Status Code Error: ".data =
        "Status Code Error:".data ++ [' '] from rfl,
      show " - ".data = [' ', '-', ' '] from rfl]
    simp
  have e401 := @hasdn_codeMsg "401".data "Status Code Error:".data c b
    (by decide) (by decide) hpre hbd
  have e403 := @hasdn_codeMsg "403".data "Status Code Error:".data c b
    (by decide) (by decide) hpre hbd
  have e404 := @hasdn_codeMsg "404".data "Status Code Error:".data c b
    (by decide) (by decide) hpre hbd
  have e429 := @hasdn_codeMsg "429".data "Status Code Error:".data c b
    (by decide) (by decide) hpre hbd
  have hsc : listHas "Status Code Error".data
      ("Status Code Error:".data ++ ' ' ::
        ((Nat.repr c).data ++ ' ' :: '-' :: ' ' :: b)) = true :=
    listHas_of_prefixOf (listPrefixOf_append _ (by decide))
  rw [hshape]
  unfold classifyExclusion
  rw [e401, e403, e404, e429, h401, h403, h404, h429, hsc]
  simp only [Bool.or_true, if_true]
  by_cases h1 : c = 401 <;> by_cases h2 : c = 403 <;>
    by_cases h3 : c = 404 <;> by_cases h4 : c = 429 <;>
    simp [h1, h2, h3, h4]

/-- `classifyExclusion` on a keyword-match error with benign keyword and
body: always soft (via the `Error Keyword Match` marker phrase). -/
theorem classify_keywordMatch (kw b : List Char)
    (hkw : ∀ ch ∈ kw, benignChar ch = true)
    (hb : ∀ ch ∈ b, benignChar ch = true) :
    classifyExclusion (errMsg (.keywordMatch kw b)) = .soft := by
  have hkd := benign_not_digit hkw
  have hbd := benign_not_digit hb
  have hpre : ∀ ch ∈ "Error Keyword Match:".data, ch.isDigit = false := by decide
  have hshape : errMsg (.keywordMatch kw b) =
      "Error Keyword Match:".data ++ ' ' ::
        (kw ++ ' ' :: 'i' :: 'n' :: ' ' :: b) := by
    show "Error Keyword Match: ".data ++ kw ++ " in ".data ++ b = _
    rw [show "Error Keyword Match: ".data =
        "Error Keyword Match:".data ++ [' '] from rfl,
      show " in ".data = [' ', 'i', 'n', ' '] from rfl]
    simp
  have e401 := @hasdn_kwMsg "401".data "Error Keyword Match:".data kw b
    (by decide) (by decide) hpre hkd hbd
  have e403 := @hasdn_kwMsg "403".data "Error Keyword Match:".data kw b
    (by decide) (by decide) hpre hkd hbd
  have e404 := @hasdn_kwMsg "404".data "Error Keyword Match:".data kw b
    (by decide) (by decide) hpre hkd hbd
  have e429 := @hasdn_kwMsg "429".data "Error Keyword Match:".data kw b
    (by decide) (by decide) hpre hkd hbd
  have hkm : listHas "Error Keyword Match".data
      ("Error Keyword Match:".data ++ ' ' ::
        (kw ++ ' ' :: 'i' :: 'n' :: ' ' :: b)) = true :=
    listHas_of_prefixOf (listPrefixOf_append _ (by decide))
  rw [hshape]
  unfold classifyExclusion
  rw [e401, e403, e404, e429, hkm]
  simp

/-- `classifyExclusion` on a non-retryable (or v1-messages retryable)
upstream error with a clean code and benign body: hard for the four hot
codes, soft only for 503, otherwise neither. -/
theorem classify_upstreamErr (c : Nat) (b : List Char) (hc1 : 100 ≤ c)
    (hc2 : c < 1000) (hb : ∀ ch ∈ b, benignChar ch = true) :
    classifyExclusion (errMsg (.upstreamErr c b)) =
      (if c = 401 ∨ c = 403 ∨ c = 404 ∨ c = 429 then .hard
       else if c = 503 then .soft else .keep) := by
  obtain ⟨hrd, h401, h403, h404, h429, h503⟩ := reprFacts c hc2 hc1
  have hbd := benign_not_digit hb
  have hpre : ∀ ch ∈ "Upstream Error:".data, ch.isDigit = false := by decide
  have hshape : errMsg (.upstreamErr c b) =
      "Upstream Error:".data ++ ' ' ::
        ((Nat.repr c).data ++ ' ' :: '-' :: ' ' :: b) := by
    show "Upstream Error: ".data ++ (Nat.repr c).data ++ " - ".data ++ b = _
    rw [show "Upstream Error: ".data = "Upstream Error:".data ++ [' '] from rfl,
      show " - ".data = [' ', '-', ' '] from rfl]
    simp
  have e401 := @hasdn_codeMsg "401".data "Upstream Error:".data c b
    (by decide) (by decide) hpre hbd
  have e403 := @hasdn_codeMsg "403".data "Upstream Error:".data c b
    (by decide) (by decide) hpre hbd
  have e404 := @hasdn_codeMsg "404".data "Upstream Error:".data c b
    (by decide) (by decide) hpre hbd
  have e429 := @hasdn_codeMsg "429".data "Upstream Error:".data c b
    (by decide) (by decide) hpre hbd
  have e503 := @hasdn_codeMsg "503".data "Upstream Error:".data c b
    (by decide) (by decide) hpre hbd
  have hS : ('S' : Char) ∉ ("Upstream Error:".data ++ ' ' ::
      ((Nat.repr c).data ++ ' ' :: '-' :: ' ' :: b)) :=
    notMem_codeMsg (by decide) (by decide) (by decide) (by decide) hrd
      (benign_not_mem hb (by decide))
  have hK : ('K' : Char) ∉ ("Upstream Error:".data ++ ' ' ::
      ((Nat.repr c).data ++ ' ' :: '-' :: ' ' :: b)) :=
    notMem_codeMsg (by decide) (by decide) (by decide) (by decide) hrd
      (benign_not_mem hb (by decide))
  have hT : ('T' : Char) ∉ ("Upstream Error:".data ++ ' ' ::
      ((Nat.repr c).data ++ ' ' :: '-' :: ' ' :: b)) :=
    notMem_codeMsg (by decide) (by decide) (by decide) (by decide) hrd
      (benign_not_mem hb (by decide))
  have hscf := listHas_eq_false_of_not_mem
    (show ('S' : Char) ∈ "Status Code Error".data by decide) hS
  have hkmf := listHas_eq_false_of_not_mem
    (show ('K' : Char) ∈ "Error Keyword Match".data by decide) hK
  have htmf := listHas_eq_false_of_not_mem
    (show ('T' : Char) ∈ "Timeout".data by decide) hT
  rw [hshape]
  unfold classifyExclusion
  rw [e401, e403, e404, e429, e503, h401, h403, h404, h429, h503, hscf, hkmf, htmf]
  by_cases h1 : c = 401 <;> by_cases h2 : c = 403 <;>
    by_cases h3 : c = 404 <;> by_cases h4 : c = 429 <;>
    by_cases h5 : c = 503 <;>
    simp [h1, h2, h3, h4, h5]

/-- Same characterization for the v1-messages retryable upstream error. -/
theorem classify_upstreamRetryable (c : Nat) (b : List Char) (hc1 : 100 ≤ c)
    (hc2 : c < 1000) (hb : ∀ ch ∈ b, benignChar ch = true) :
    classifyExclusion (errMsg (.upstreamRetryable c b)) =
      (if c = 401 ∨ c = 403 ∨ c = 404 ∨ c = 429 then .hard
       else if c = 503 then .soft else .keep) := by
  obtain ⟨hrd, h401, h403, h404, h429, h503⟩ := reprFacts c hc2 hc1
  have hbd := benign_not_digit hb
  have hpre : ∀ ch ∈ "Upstream Error (Retryable):".data, ch.isDigit = false := by
    decide
  have hshape : errMsg (.upstreamRetryable c b) =
      "Upstream Error (Retryable):".data ++ ' ' ::
        ((Nat.repr c).data ++ ' ' :: '-' :: ' ' :: b) := by
    show "Upstream Error (Retryable): ".data ++ (Nat.repr c).data
        ++ " - ".data ++ b = _
    rw [show "Upstream Error (Retryable): ".data =
        "Upstream Error (Retryable):".data ++ [' '] from rfl,
      show " - ".data = [' ', '-', ' '] from rfl]
    simp
  have e401 := @hasdn_codeMsg "401".data "Upstream Error (Retryable):".data
    c b (by decide) (by decide) hpre hbd
  have e403 := @hasdn_codeMsg "403".data "Upstream Error (Retryable):".data
    c b (by decide) (by decide) hpre hbd
  have e404 := @hasdn_codeMsg "404".data "Upstream Error (Retryable):".data
    c b (by decide) (by decide) hpre hbd
  have e429 := @hasdn_codeMsg "429".data "Upstream Error (Retryable):".data
    c b (by decide) (by decide) hpre hbd
  have e503 := @hasdn_codeMsg "503".data "Upstream Error (Retryable):".data
    c b (by decide) (by decide) hpre hbd
  have hS : ('S' : Char) ∉ ("Upstream Error (Retryable):".data ++ ' ' ::
      ((Nat.repr c).data ++ ' ' :: '-' :: ' ' :: b)) :=
    notMem_codeMsg (by decide) (by decide) (by decide) (by decide) hrd
      (benign_not_mem hb (by decide))
  have hK : ('K' : Char) ∉ ("Upstream Error (Retryable):".data ++ ' ' ::
      ((Nat.repr c).data ++ ' ' :: '-' :: ' ' :: b)) :=
    notMem_codeMsg (by decide) (by decide) (by decide) (by decide) hrd
      (benign_not_mem hb (by decide))
  have hT : ('T' : Char) ∉ ("Upstream Error (Retryable):".data ++ ' ' ::
      ((Nat.repr c).data ++ ' ' :: '-' :: ' ' :: b)) :=
    notMem_codeMsg (by decide) (by decide) (by decide) (by decide) hrd
      (benign_not_mem hb (by decide))
  have hscf := listHas_eq_false_of_not_mem
    (show ('S' : Char) ∈ "Status Code Error".data by decide) hS
  have hkmf := listHas_eq_false_of_not_mem
    (show ('K' : Char) ∈ "Error Keyword Match".data by decide) hK
  have htmf := listHas_eq_false_of_not_mem
    (show ('T' : Char) ∈ "Timeout".data by decide) hT
  rw [hshape]
  unfold classifyExclusion
  rw [e401, e403, e404, e429, e503, h401, h403, h404, h429, h503, hscf, hkmf, htmf]
  by_cases h1 : c = 401 <;> by_cases h2 : c = 403 <;>
    by_cases h3 : c = 404 <;> by_cases h4 : c = 429 <;>
    by_cases h5 : c = 503 <;>
    simp [h1, h2, h3, h4, h5]

/-- `classifyExclusion` on a TTFT timeout whose formatted seconds avoid the
hot code substrings: always soft (the fixed prefix contains `Timeout`). -/
theorem classify_ttft (t : List Char)
    (ht : ∀ ch ∈ t, ch.isDigit = true ∨ ch = '.')
    (h1 : listHas "401".data t = false) (h2 : listHas "403".data t = false)
    (h3 : listHas "404".data t = false) (h4 : listHas "429".data t = false) :
    classifyExclusion (errMsg (.ttftTimeout t)) = .soft := by
  have hshape : errMsg (.ttftTimeout t) =
      "TTFT Timeout (Headers) >".data ++ ' ' :: (t ++ 's' :: []) := by
    show "TTFT Timeout (Headers) > ".data ++ t ++ ['s'] = _
    rw [show "TTFT Timeout (Headers) > ".data =
        "TTFT Timeout (Headers) >".data ++ [' '] from rfl]
    simp
  have hpre : ∀ ch ∈ "TTFT Timeout (Headers) >".data, ch.isDigit = false := by
    decide
  have hnotmem : ∀ x : Char, x ∉ t → x ≠ ' ' → x ≠ 's' →
      x ∉ "TTFT Timeout (Headers) >".data →
      x ∉ ("TTFT Timeout (Headers) >".data ++ ' ' :: (t ++ 's' :: [])) := by
    intro x hxt hxsp hxs hxpre
    exact notMem_ttftMsg hxpre hxsp hxs hxt
  have hdn : ∀ dn : List Char, (∀ ch ∈ dn, ch.isDigit = true) → dn ≠ [] →
      listHas dn t = false →
      listHas dn ("TTFT Timeout (Headers) >".data ++ ' ' :: (t ++ 's' :: []))
        = false := by
    intro dn hdnd hdnne hdt
    have hspn : ¬ ((' ' : Char).isDigit = true) := by decide
    have hsn : ¬ (('s' : Char).isDigit = true) := by decide
    obtain ⟨x, hx⟩ := List.exists_mem_of_ne_nil dn hdnne
    have hnP : ∃ ch ∈ dn, ch.isDigit = true := ⟨x, hx, hdnd x hx⟩
    have hpf : listHas dn "TTFT Timeout (Headers) >".data = false :=
      listHas_eq_false_of_disjoint hnP (fun ch hch => by simp [hpre ch hch])
    rw [listHas_append_sep hdnd hspn, hpf]
    have e1 : (t ++ 's' :: []) = t ++ 's' :: ([] : List Char) := rfl
    rw [e1, listHas_append_sep hdnd hsn, hdt, listHas_nil_eq_false hdnne]
    rfl
  have hKt : ('K' : Char) ∉ t := by
    intro hmem
    rcases ht 'K' hmem with h | h
    · cases h
    · cases h
  have hSt : ('S' : Char) ∉ t := by
    intro hmem
    rcases ht 'S' hmem with h | h
    · cases h
    · cases h
  have hK := hnotmem 'K' hKt (by decide) (by decide) (by decide)
  have hS := hnotmem 'S' hSt (by decide) (by decide) (by decide)
  have hkmf := listHas_eq_false_of_not_mem
    (show ('K' : Char) ∈ "Error Keyword Match".data by decide) hK
  have hscf := listHas_eq_false_of_not_mem
    (show ('S' : Char) ∈ "Status Code Error".data by decide) hS
  have htm : listHas "Timeout".data
      ("TTFT Timeout (Headers) >".data ++ ' ' :: (t ++ 's' :: [])) = true :=
    listHas_append_left _ (by decide)
  rw [hshape]
  unfold classifyExclusion
  rw [hdn "401".data (by decide) (by decide) h1,
    hdn "403".data (by decide) (by decide) h2,
    hdn "404".data (by decide) (by decide) h3,
    hdn "429".data (by decide) (by decide) h4,
    hkmf, hscf, htm]
  simp

/-- C1 counterexample: a keyword-match failure whose response body happens
to contain the digits `401` is *hard*-excluded for the whole request, even
though the error is a keyword match, not an auth/not-found/rate-limit
status — the claimed iff is false because the classifier substring-matches
the composed message (body included).  The input is reachable: the first
conjunct is the raise condition of lines 1149–1159 (the configured keyword
`error` is a substring of the lowercase body `error 401 from upstream`),
so that branch raises exactly
`Error Keyword Match: error in error 401 from upstream`. -/
theorem exclusion_C1_counterexample :
    listHas "error".data "error 401 from upstream".data = true ∧
    classifyExclusion (errMsg
      (.keywordMatch "error".data "error 401 from upstream".data))
      = Verdict.hard ∧
    specHardExclude
      (.keywordMatch "error".data "error 401 from upstream".data)
      = false := by
  refine ⟨?_, ?_, ?_⟩
  · decide
  · decide
  · decide

/-- C1 (amended): the exclusion decision is by substring matching on the
composed error message.  When the variable parts are clean (benign bodies
and keywords, three-digit codes, timeout seconds free of hot code digits),
an entry is hard-excluded iff the error carries status code 401, 403, 404
or 429 (whatever its kind); otherwise it is soft-excluded (skipped for the
round) iff it is a keyword match, an openai-path status-code error, any
timeout, or carries code 503; empty responses and other upstream errors are
neither.  Without cleanliness the substrings win (see the counterexample). -/
theorem exclusion_C1_amended (e : UpErr) (hc : cleanErr e) :
    classifyExclusion (errMsg e) =
      (if amendedHard e then Verdict.hard
       else if amendedSoft e then Verdict.soft else Verdict.keep) := by
  cases e with
  | ttftTimeout t =>
    obtain ⟨ht, h1, h2, h3, h4⟩ := hc
    rw [classify_ttft t ht h1 h2 h3 h4]
    simp [amendedHard, amendedSoft]
  | totalTimeout => decide
  | connectTimeout => decide
  | emptyResp => decide
  | statusCode c b =>
    obtain ⟨hc1, hc2, hb⟩ := hc
    rw [classify_statusCode c b hc1 hc2 hb]
    simp only [amendedHard, amendedSoft, Bool.or_eq_true, decide_eq_true_eq]
    split <;> split <;> simp_all
  | keywordMatch kw b =>
    obtain ⟨hkw, hb⟩ := hc
    rw [classify_keywordMatch kw b hkw hb]
    simp [amendedHard, amendedSoft]
  | upstreamErr c b =>
    obtain ⟨hc1, hc2, hb⟩ := hc
    rw [classify_upstreamErr c b hc1 hc2 hb]
    simp only [amendedHard, amendedSoft, Bool.or_eq_true, decide_eq_true_eq]
    split <;> split <;> simp_all
  | upstreamRetryable c b =>
    obtain ⟨hc1, hc2, hb⟩ := hc
    rw [classify_upstreamRetryable c b hc1 hc2 hb]
    simp only [amendedHard, amendedSoft, Bool.or_eq_true, decide_eq_true_eq]
    split <;> split <;> simp_all

/-- Witness for the amended C1 at a retryable 500 with a benign body: the
classifier yields a soft (round-only) exclusion. -/
theorem exclusion_C1_amended_witness :
    classifyExclusion (errMsg (.statusCode 500 "internal server error".data)) =
      (if amendedHard (.statusCode 500 "internal server error".data)
       then Verdict.hard
       else if amendedSoft (.statusCode 500 "internal server error".data)
       then Verdict.soft else Verdict.keep) :=
  exclusion_C1_amended _ ⟨by norm_num, by norm_num, by decide⟩

/-! ## JSON values

Python dicts/lists/strings/numbers as passed around by the engine.  Floats
and ints are both rationals.  `jGet` is `dict.get`: association lists may
carry duplicate keys, the last write wins (as in a Python dict built by
successive assignment). -/

inductive JVal where
  | null
  | bool (b : Bool)
  | num (q : ℚ)
  | str (s : String)
  | arr (elems : List JVal)
  | obj (fields : List (String × JVal))

def jGet (fields : List (String × JVal)) (k : String) : Option JVal :=
  fields.foldl (fun acc p => if p.1 = k then some p.2 else acc) none

/-- Python truthiness of a JSON value (`if x:`). -/
def jTruthy : JVal → Bool
  | .null => false
  | .bool b => b
  | .num q => q ≠ 0
  | .str s => s ≠ ""
  | .arr elems => !elems.isEmpty
  | .obj fields => !fields.isEmpty

/-- One list item inside a multimodal content list
(`_extract_text_from_content`): dict items with `type == "text"` contribute
their `text`, image items the literal `[图片]`, everything else nothing.
(A non-string `text` value would make CPython's `join` raise; the engine
never constructs one, and no theorem depends on that branch.) -/
def partText : JVal → String
  | .obj fields =>
    match jGet fields "type" with
    | some (.str "text") =>
      match jGet fields "text" with
      | some (.str s) => s
      | _ => ""
    | some (.str "image_url") => "[图片]"
    | some (.str "image") => "[图片]"
    | _ => ""
  | _ => ""

/-- `_extract_text_from_content`.  The final `str(content)` fallback for
numbers/booleans/dicts is approximated (str(True) is exact, numeric and
dict renderings are not); no theorem exercises those branches. -/
def extractText : JVal → String
  | .null => ""
  | .str s => s
  | .arr items => String.join (items.map partText)
  | .bool b => if b then "True" else "False"
  | .num q => toString q
  | .obj _ => ""

/-! ## TierClassifier: the router-reply handler (`determine_level`)

Models lines 513–548: on a 200 router reply the body content is stripped
and uppercased, searched with `re.search(r"\bT([1-3])\b")`, then — a step
the spec omits — checked for the plain substrings `T1`, `T2`, `T3`, and
only then does the heuristic run.  Character-level operations (`upper`,
`\w`) are exact for ASCII; theorems' concrete inputs are ASCII. -/

structure OAToolCall where
  tid : JVal := .null
  tname : JVal := .null
  targs : String := "\x7b\x7d"

structure OAMsg where
  role : String := ""
  content : JVal := .null
  tool_calls : List OAToolCall := []
  tool_call_id : JVal := .null

def pySpace (c : Char) : Bool :=
  c = ' ' || c = '\t' || c = '\n' || c = '\r' || c = '\x0b' || c = '\x0c'

/-- Python `str.strip()`. -/
def pyStrip (l : List Char) : List Char :=
  ((l.dropWhile pySpace).reverse.dropWhile pySpace).reverse

def upperChars (l : List Char) : List Char := l.map Char.toUpper

/-- `\w` (ASCII). -/
def isWordChar (c : Char) : Bool := c.isAlphanum || c = '_'

def boundaryOk (prev : Option Char) : Bool :=
  match prev with
  | none => true
  | some c => !isWordChar c

def rightBoundary : List Char → Bool
  | [] => true
  | e :: _ => !isWordChar e

/-- Leftmost match of `\bT([1-3])\b`, scanning with the previous character
for the left word-boundary test; returns the captured digit. -/
def tierSearchAux (prev : Option Char) : List Char → Option Char
  | [] => none
  | [_] => none
  | c :: d :: rest =>
    if c = 'T' && boundaryOk prev && (d = '1' || d = '2' || d = '3') &&
        rightBoundary rest
    then some d
    else tierSearchAux (some c) (d :: rest)

def regexTier (content : List Char) : Option Char := tierSearchAux none content

/-- The body of `if resp.status_code == 200:`: regex first, then the plain
substring fallback; `none` means fall through to the heuristic. -/
def replyTier (body : List Char) : Option String :=
  let content := upperChars (pyStrip body)
  match regexTier content with
  | some d => some (String.mk ['t', d])
  | none =>
    if listHas "T1".data content then some "t1"
    else if listHas "T2".data content then some "t2"
    else if listHas "T3".data content then some "t3"
    else none

def complexKeywords : List String :=
  ["code", "function", "complex", "analysis", "summary", "reasoning",
   "generate", "create", "代码", "函数", "分析", "总结", "推理", "生成",
   "创建", "搜索", "查询"]

def lowerStr (s : String) : String := .mk (s.data.map Char.toLower)

/-- The fallback heuristic of `determine_level`. -/
def heuristicLevel (messages : List OAMsg) : String :=
  let fullText := " ".intercalate (messages.map (fun m => extractText m.content))
  if 2000 < fullText.length then "t3"
  else if complexKeywords.any (fun k => pyIn k (lowerStr fullText)) then "t2"
  else "t1"

/-- The router-enabled tail of `determine_level`, given the router call's
HTTP status and the reply message content. -/
def determineLevelRouter (status : Nat) (replyBody : List Char)
    (messages : List OAMsg) : String :=
  if status = 200 then
    match replyTier replyBody with
    | some t => t
    | none => heuristicLevel messages
  else heuristicLevel messages

/-- A standalone-token occurrence of `T[1-3]` with word boundaries, stated
positionally on the decomposition of the text, with the left boundary of a
leading occurrence judged against `prev`. -/
def tokenMatchAux (prev : Option Char) (l : List Char) (d : Char) : Prop :=
  ∃ x y, l = x ++ 'T' :: d :: y ∧ (d = '1' ∨ d = '2' ∨ d = '3') ∧
    ((x = [] ∧ boundaryOk prev = true) ∨
      ∃ p, x.getLast? = some p ∧ isWordChar p = false) ∧
    (y = [] ∨ ∃ e, y.head? = some e ∧ isWordChar e = false)

def tokenMatch (l : List Char) (d : Char) : Prop := tokenMatchAux none l d

theorem tierSearchAux_none {l : List Char} :
    ∀ {prev : Option Char}, tierSearchAux prev l = none →
      ∀ d, ¬ tokenMatchAux prev l d := by
  induction l with
  | nil =>
    intro prev _ d hm
    obtain ⟨x, y, hxy, _, _, _⟩ := hm
    cases x <;> simp at hxy
  | cons c t ih =>
    intro prev h d hm
    obtain ⟨x, y, hxy, hd, hleft, hright⟩ := hm
    cases t with
    | nil =>
      cases x with
      | nil => simp at hxy
      | cons a x' =>
        simp only [List.cons_append, List.cons.injEq] at hxy
        rcases hxy with ⟨rfl, hxy⟩
        cases x' <;> simp at hxy
    | cons e rest =>
      have hstep : tierSearchAux prev (c :: e :: rest) =
          (if (c = 'T' && boundaryOk prev && (e = '1' || e = '2' || e = '3') &&
              rightBoundary rest)
           then some e
           else tierSearchAux (some c) (e :: rest)) := rfl
      rw [hstep] at h
      by_cases hcond : (c = 'T' && boundaryOk prev &&
          (e = '1' || e = '2' || e = '3') && rightBoundary rest) = true
      · rw [if_pos hcond] at h; cases h
      · rw [if_neg hcond] at h
        cases x with
        | nil =>
          simp only [List.nil_append, List.cons.injEq] at hxy
          obtain ⟨rfl, rfl, rfl⟩ := hxy
          apply hcond
          have hb : boundaryOk prev = true := by
            rcases hleft with ⟨_, hb⟩ | ⟨p, hp, _⟩
            · exact hb
            · simp at hp
          have hre : rightBoundary rest = true := by
            rcases hright with rfl | ⟨e', he', hw⟩
            · rfl
            · cases rest with
              | nil => simp at he'
              | cons y0 yt =>
                simp only [List.head?_cons, Option.some.injEq] at he'
                subst he'
                simp [rightBoundary, hw]
          rcases hd with rfl | rfl | rfl <;> simp [hb, hre]
        | cons a x' =>
          simp only [List.cons_append, List.cons.injEq] at hxy
          rcases hxy with ⟨rfl, hxy⟩
          apply ih h d
          refine ⟨x', y, hxy, hd, ?_, hright⟩
          cases x' with
          | nil =>
            left
            refine ⟨rfl, ?_⟩
            rcases hleft with ⟨hx, _⟩ | ⟨p, hp, hw⟩
            · cases hx
            · simp only [List.getLast?_singleton, Option.some.injEq] at hp
              subst hp
              simp [boundaryOk, hw]
          | cons b x'' =>
            right
            rcases hleft with ⟨hx, _⟩ | ⟨p, hp, hw⟩
            · cases hx
            · exact ⟨p, by simpa [List.getLast?_cons_cons] using hp, hw⟩

theorem tierSearchAux_some {l : List Char} :
    ∀ {prev : Option Char} {d : Char}, tierSearchAux prev l = some d →
      tokenMatchAux prev l d := by
  induction l with
  | nil => intro prev d h; simp [tierSearchAux] at h
  | cons c t ih =>
    intro prev d h
    cases t with
    | nil => simp [tierSearchAux] at h
    | cons e rest =>
      have hstep : tierSearchAux prev (c :: e :: rest) =
          (if (c = 'T' && boundaryOk prev && (e = '1' || e = '2' || e = '3') &&
              rightBoundary rest)
           then some e
           else tierSearchAux (some c) (e :: rest)) := rfl
      rw [hstep] at h
      by_cases hcond : (c = 'T' && boundaryOk prev &&
          (e = '1' || e = '2' || e = '3') && rightBoundary rest) = true
      · rw [if_pos hcond] at h
        injection h with h
        subst h
        simp only [Bool.and_eq_true, decide_eq_true_eq, Bool.or_eq_true] at hcond
        obtain ⟨⟨⟨rfl, hb⟩, hd⟩, hre⟩ := hcond
        refine ⟨[], rest, rfl, by tauto, Or.inl ⟨rfl, hb⟩, ?_⟩
        cases rest with
        | nil => exact Or.inl rfl
        | cons e' rt =>
          right
          exact ⟨e', rfl, by simpa [rightBoundary] using hre⟩
      · rw [if_neg hcond] at h
        obtain ⟨x, y, hxy, hd, hleft, hright⟩ := ih h
        refine ⟨c :: x, y, by simp [hxy], hd, ?_, hright⟩
        right
        rcases hleft with ⟨rfl, hb⟩ | ⟨p, hp, hw⟩
        · exact ⟨c, by simp, by simpa [boundaryOk] using hb⟩
        · cases x with
          | nil => simp at hp
          | cons b x'' =>
            exact ⟨p, by simpa [List.getLast?_cons_cons] using hp, hw⟩

/-- C8 counterexample: the router reply `CAT2X` contains no standalone
`T[1-3]` token (the regex fails), yet the classifier returns `t2` derived
from the reply via the plain substring fallback — the heuristic, which
would say `t1` for these messages, never runs. -/
theorem router_tier_C8_counterexample :
    determineLevelRouter 200 "CAT2X".data
      [{ role := "user", content := .str "hi" }] = "t2" ∧
    regexTier (upperChars (pyStrip "CAT2X".data)) = none ∧
    heuristicLevel [{ role := "user", content := .str "hi" }] = "t1" := by
  refine ⟨?_, ?_, ?_⟩ <;> decide

/-- C8 (amended): on a 200 router reply, if the uppercased stripped body
contains a standalone token `\bT[1-3]\b` the classifier returns the tier of
the leftmost such token; if the pattern is absent, the classifier still
derives a tier from the reply whenever one of the plain substrings `T1`
(checked first), `T2`, then `T3` occurs, and only falls through to the
heuristic when none does. -/
theorem router_tier_C8_amended (body : List Char) (messages : List OAMsg) :
    ((∃ d, tokenMatch (upperChars (pyStrip body)) d) →
      ∃ d, regexTier (upperChars (pyStrip body)) = some d ∧
        tokenMatch (upperChars (pyStrip body)) d ∧
        determineLevelRouter 200 body messages = String.mk ['t', d]) ∧
    ((∀ d, ¬ tokenMatch (upperChars (pyStrip body)) d) →
      determineLevelRouter 200 body messages =
        (if listHas "T1".data (upperChars (pyStrip body)) then "t1"
         else if listHas "T2".data (upperChars (pyStrip body)) then "t2"
         else if listHas "T3".data (upperChars (pyStrip body)) then "t3"
         else heuristicLevel messages)) := by
  constructor
  · rintro ⟨d0, hm⟩
    cases hr : regexTier (upperChars (pyStrip body)) with
    | none => exact absurd hm (tierSearchAux_none hr d0)
    | some d =>
      refine ⟨d, rfl, tierSearchAux_some hr, ?_⟩
      simp [determineLevelRouter, replyTier, hr]
  · intro hno
    cases hr : regexTier (upperChars (pyStrip body)) with
    | none =>
      by_cases h1 : listHas "T1".data (upperChars (pyStrip body)) = true <;>
      by_cases h2 : listHas "T2".data (upperChars (pyStrip body)) = true <;>
      by_cases h3 : listHas "T3".data (upperChars (pyStrip body)) = true <;>
      simp [determineLevelRouter, replyTier, hr, h1, h2, h3]
    | some d => exact absurd (tierSearchAux_some hr) (hno d)

/-- Witness for the amended C8: the reply `t2 please` carries a standalone
token, and the classifier returns `t2`. -/
theorem router_tier_C8_amended_witness :
    ∃ d, regexTier (upperChars (pyStrip "t2 please".data)) = some d ∧
      tokenMatch (upperChars (pyStrip "t2 please".data)) d ∧
      determineLevelRouter 200 "t2 please".data [] = String.mk ['t', d] :=
  (router_tier_C8_amended "t2 please".data []).1
    ⟨'2', [], " PLEASE".data, by decide, by decide,
      Or.inl ⟨rfl, rfl⟩, Or.inr ⟨' ', rfl, by decide⟩⟩

/-- Witness instance of C10 at a concrete call. -/
theorem routing_perm_C10_witness :
    (getSortedModels ["a", "b"] "sequential"
      (fun _ => 0) (fun _ => 0) (fun _ => 0)).Perm ["a", "b"] ∧
    getSortedModels ["a", "b"] "sequential"
      (fun _ => 0) (fun _ => 0) (fun _ => 0) = ["a", "b"] := by
  obtain ⟨h1, h2, _⟩ := routing_perm_C10 ["a", "b"] "sequential"
    (fun _ => 0) (fun _ => 0) (fun _ => 0)
  exact ⟨h1, h2 rfl⟩

/-! ## UpstreamCaller payload merge (`_call_upstream`, lines 882–937)

Python dicts are association lists; `dSet` is item assignment, `dUpdate`
is `dict.update`.  The pydantic request model keeps the caller's fields as
validated values: an unsupplied Optional field takes its declared default
(`None` for most, but `n = 1` and `stream = False`), and
`model_dump(exclude_none=True)` drops exactly the `None`-valued fields. -/

def dSet (d : List (String × JVal)) (k : String) (v : JVal) :
    List (String × JVal) :=
  if d.any (fun p => p.1 = k) then
    d.map (fun p => if p.1 = k then (k, v) else p)
  else d ++ [(k, v)]

def dUpdate (d e : List (String × JVal)) : List (String × JVal) :=
  e.foldl (fun acc p => dSet acc p.1 p.2) d

/-- First-of `Option`: `oOr a b` is `a` unless `a` is `none`. -/
def oOr (a b : Option JVal) : Option JVal :=
  match a with
  | some v => some v
  | none => b

/-- `ChatCompletionRequest` after pydantic validation. -/
structure ChatRequest where
  model : Option JVal := none
  messages : JVal
  temperature : Option JVal := none
  top_p : Option JVal := none
  n : Option JVal := some (.num 1)
  stream : Option JVal := some (.bool false)
  stop : Option JVal := none
  max_tokens : Option JVal := none
  presence_penalty : Option JVal := none
  frequency_penalty : Option JVal := none
  logit_bias : Option JVal := none
  user : Option JVal := none
  tools : Option JVal := none
  tool_choice : Option JVal := none

def optEntry (k : String) (v : Option JVal) : List (String × JVal) :=
  match v with
  | some x => [(k, x)]
  | none => []

/-- `request.model_dump(exclude_none=True)`, in field order. -/
def dumpExcludeNone (r : ChatRequest) : List (String × JVal) :=
  optEntry "model" r.model ++ [("messages", r.messages)] ++
  optEntry "temperature" r.temperature ++ optEntry "top_p" r.top_p ++
  optEntry "n" r.n ++ optEntry "stream" r.stream ++
  optEntry "stop" r.stop ++ optEntry "max_tokens" r.max_tokens ++
  optEntry "presence_penalty" r.presence_penalty ++
  optEntry "frequency_penalty" r.frequency_penalty ++
  optEntry "logit_bias" r.logit_bias ++ optEntry "user" r.user ++
  optEntry "tools" r.tools ++ optEntry "tool_choice" r.tool_choice

/-- What the caller put on the wire for one field. -/
inductive Supplied where
  | absent
  | null
  | given (v : JVal)

/-- The caller's raw request (before validation). -/
structure CallerRequest where
  model : Supplied := .absent
  messages : JVal
  temperature : Supplied := .absent
  top_p : Supplied := .absent
  n : Supplied := .absent
  stream : Supplied := .absent
  stop : Supplied := .absent
  max_tokens : Supplied := .absent
  presence_penalty : Supplied := .absent
  frequency_penalty : Supplied := .absent
  logit_bias : Supplied := .absent
  user : Supplied := .absent
  tools : Supplied := .absent
  tool_choice : Supplied := .absent

def validateField (s : Supplied) (dflt : Option JVal) : Option JVal :=
  match s with
  | .absent => dflt
  | .null => none
  | .given v => some v

/-- pydantic validation: unsupplied fields take their declared defaults. -/
def validate (c : CallerRequest) : ChatRequest where
  model := validateField c.model none
  messages := c.messages
  temperature := validateField c.temperature none
  top_p := validateField c.top_p none
  n := validateField c.n (some (.num 1))
  stream := validateField c.stream (some (.bool false))
  stop := validateField c.stop none
  max_tokens := validateField c.max_tokens none
  presence_penalty := validateField c.presence_penalty none
  frequency_penalty := validateField c.frequency_penalty none
  logit_bias := validateField c.logit_bias none
  user := validateField c.user none
  tools := validateField c.tools none
  tool_choice := validateField c.tool_choice none

/-- The parameter merge of `_call_upstream`:
`final_payload = {}`, `update(global_params)`, `update(model_params[m])`
when that key exists, `update(request.model_dump(exclude_none=True))`.
(The earlier in-place loop over `payload` at lines 904–912 is dead: the
variable is overwritten by `final_payload` at line 937.) -/
def mergedParams (globalParams : List (String × JVal))
    (modelParams : Option (List (String × JVal))) (r : ChatRequest) :
    List (String × JVal) :=
  dUpdate
    (match modelParams with
     | some mp => dUpdate (dUpdate [] globalParams) mp
     | none => dUpdate [] globalParams)
    (dumpExcludeNone r)

/-- The `final_payload` construction of `_call_upstream` (lines 914–937):
the merge, then `model` is overwritten, then `stream` (and, for openai,
`stream_options`) is forced. -/
def buildPayload (globalParams : List (String × JVal))
    (modelParams : Option (List (String × JVal))) (r : ChatRequest)
    (modelId : String) (protocol : String) : List (String × JVal) :=
  if protocol = "v1-messages" then
    dSet (dSet (mergedParams globalParams modelParams r) "model"
      (.str modelId)) "stream" (.bool false)
  else
    dSet (dSet (dSet (mergedParams globalParams modelParams r) "model"
      (.str modelId)) "stream" (.bool true)) "stream_options"
      (.obj [("include_usage", .bool true)])

/-- Modelled from the claim's words, for comparison: global params,
overridden by model params, overridden by exactly those request fields the
caller supplied with a non-null value, with `model` then overwritten. -/
def suppliedEntry (k : String) (s : Supplied) : List (String × JVal) :=
  match s with
  | .given v => [(k, v)]
  | _ => []

def suppliedNonNull (c : CallerRequest) : List (String × JVal) :=
  suppliedEntry "model" c.model ++ [("messages", c.messages)] ++
  suppliedEntry "temperature" c.temperature ++ suppliedEntry "top_p" c.top_p ++
  suppliedEntry "n" c.n ++ suppliedEntry "stream" c.stream ++
  suppliedEntry "stop" c.stop ++ suppliedEntry "max_tokens" c.max_tokens ++
  suppliedEntry "presence_penalty" c.presence_penalty ++
  suppliedEntry "frequency_penalty" c.frequency_penalty ++
  suppliedEntry "logit_bias" c.logit_bias ++ suppliedEntry "user" c.user ++
  suppliedEntry "tools" c.tools ++ suppliedEntry "tool_choice" c.tool_choice

def specPayload (globalParams : List (String × JVal))
    (modelParams : Option (List (String × JVal))) (c : CallerRequest)
    (modelId : String) : List (String × JVal) :=
  let p := dUpdate [] globalParams
  let p := match modelParams with
    | some mp => dUpdate p mp
    | none => p
  let p := dUpdate p (suppliedNonNull c)
  dSet p "model" (.str modelId)

theorem jGet_foldl_init (k : String) (l : List (String × JVal))
    (acc : Option JVal) :
    l.foldl (fun acc p => if p.1 = k then some p.2 else acc) acc =
      oOr (jGet l k) acc := by
  induction l generalizing acc with
  | nil => simp [jGet, oOr]
  | cons p t ih =>
    show t.foldl _ (if p.1 = k then some p.2 else acc) = _
    rw [ih]
    show _ = oOr (t.foldl _ (if p.1 = k then some p.2 else none)) acc
    rw [ih]
    by_cases hp : p.1 = k <;>
      cases hg : jGet t k <;> simp [hp, hg, oOr]

theorem jGet_append (k : String) (a b : List (String × JVal)) :
    jGet (a ++ b) k = oOr (jGet b k) (jGet a k) := by
  show (a ++ b).foldl _ none = _
  rw [List.foldl_append]
  rw [show a.foldl (fun acc p => if p.1 = k then some p.2 else acc) none
    = jGet a k from rfl]
  exact jGet_foldl_init k b (jGet a k)

theorem jGet_cons (q : String × JVal) (t : List (String × JVal)) (k : String) :
    jGet (q :: t) k = oOr (jGet t k) (if q.1 = k then some q.2 else none) := by
  show t.foldl _ (if q.1 = k then some q.2 else none) = _
  exact jGet_foldl_init k t _

theorem jGet_mapRepl (d : List (String × JVal)) (k : String) (v : JVal) :
    jGet (d.map (fun p => if p.1 = k then (k, v) else p)) k =
      (match jGet d k with | some _ => some v | none => none) := by
  induction d with
  | nil => rfl
  | cons q t ih =>
    rw [List.map_cons, jGet_cons, ih, jGet_cons]
    by_cases hq : q.1 = k <;>
      cases hg : jGet t k <;> simp [hq, hg, oOr]

theorem jGet_mapRepl_other (d : List (String × JVal)) (k k' : String)
    (v : JVal) (hne : k' ≠ k) :
    jGet (d.map (fun p => if p.1 = k then (k, v) else p)) k' = jGet d k' := by
  induction d with
  | nil => rfl
  | cons q t ih =>
    rw [List.map_cons, jGet_cons, ih, jGet_cons]
    by_cases hq : q.1 = k
    · simp only [hq, if_pos rfl]
      have h1 : (k = k') = False := by simp [Ne.symm hne]
      have h2 : (q.1 = k') = False := by simp [hq, Ne.symm hne]
      simp [h1, h2]
    · simp [hq]

theorem jGet_some_of_mem {d : List (String × JVal)} {p : String × JVal}
    (hp : p ∈ d) (hk : p.1 = k) : ∃ w, jGet d k = some w := by
  induction d with
  | nil => cases hp
  | cons q t ih =>
    rw [jGet_cons]
    rcases List.mem_cons.mp hp with rfl | hmem
    · cases hg : jGet t k with
      | none => exact ⟨p.2, by simp [oOr, hg, hk]⟩
      | some w => exact ⟨w, by simp [oOr, hg]⟩
    · obtain ⟨w, hw⟩ := ih hmem
      exact ⟨w, by simp [oOr, hw]⟩

theorem jGet_dSet_same (d : List (String × JVal)) (k : String) (v : JVal) :
    jGet (dSet d k v) k = some v := by
  unfold dSet
  split
  · rename_i hany
    simp only [List.any_eq_true, decide_eq_true_eq] at hany
    obtain ⟨p0, hp0, hp0k⟩ := hany
    obtain ⟨w, hw⟩ := jGet_some_of_mem hp0 hp0k
    rw [jGet_mapRepl, hw]
  · rw [jGet_append]
    simp [jGet, oOr]

theorem jGet_dSet_other (d : List (String × JVal)) (k k' : String) (v : JVal)
    (hne : k' ≠ k) : jGet (dSet d k v) k' = jGet d k' := by
  unfold dSet
  split
  · exact jGet_mapRepl_other d k k' v hne
  · rw [jGet_append]
    have h1 : jGet [(k, v)] k' = none := by
      simp [jGet, Ne.symm hne]
    rw [h1]
    rfl

theorem jGet_dUpdate (d e : List (String × JVal)) (k : String) :
    jGet (dUpdate d e) k = oOr (jGet e k) (jGet d k) := by
  induction e generalizing d with
  | nil => rfl
  | cons p t ih =>
    show jGet (dUpdate (dSet d p.1 p.2) t) k = _
    rw [ih, jGet_cons]
    by_cases hp : p.1 = k
    · subst hp
      rw [jGet_dSet_same]
      cases hg : jGet t p.1 <;> simp [oOr, hg]
    · rw [jGet_dSet_other d p.1 k p.2 (Ne.symm hp)]
      simp only [hp, if_false]
      cases hg : jGet t k <;> simp [oOr, hg]

theorem jGet_optEntry (k k' : String) (v : Option JVal) :
    jGet (optEntry k' v) k =
      (if k' = k then (match v with | some x => some x | none => none)
       else none) := by
  cases v <;> by_cases h : k' = k <;> simp [optEntry, jGet, h]

theorem jGet_single (k k' : String) (v : JVal) :
    jGet [(k', v)] k = (if k' = k then some v else none) := by
  by_cases h : k' = k <;> simp [jGet, h]

theorem jGet_merged (gp : List (String × JVal))
    (mp : Option (List (String × JVal))) (r : ChatRequest) (k : String) :
    jGet (mergedParams gp mp r) k =
      oOr (jGet (dumpExcludeNone r) k)
        (oOr (jGet (mp.getD []) k) (jGet gp k)) := by
  unfold mergedParams
  have hnil : jGet ([] : List (String × JVal)) k = none := rfl
  cases mp with
  | none =>
    rw [jGet_dUpdate, jGet_dUpdate, hnil]
    show _ = oOr (jGet (dumpExcludeNone r) k)
      (oOr (jGet ([] : List (String × JVal)) k) (jGet gp k))
    rw [hnil]
    cases hg : jGet gp k <;> cases hd : jGet (dumpExcludeNone r) k <;>
      simp [oOr, hg, hd]
  | some m =>
    rw [jGet_dUpdate, jGet_dUpdate, jGet_dUpdate, hnil]
    show _ = oOr (jGet (dumpExcludeNone r) k) (oOr (jGet m k) (jGet gp k))
    cases hg : jGet gp k <;> cases hm : jGet m k <;>
      cases hd : jGet (dumpExcludeNone r) k <;>
      simp [oOr, hg, hm, hd]

/-- C3 counterexample: the caller supplies only `messages`; pydantic fills
the default `n = 1`, `model_dump(exclude_none=True)` keeps it, and it
overrides `model_params`' `n = 5`.  Under the claim's merge (`n` was not
supplied, so not taken from the request) the payload would carry `n = 5`. -/
theorem payload_C3_counterexample :
    jGet (buildPayload [] (some [("n", .num 5)])
      (validate { messages := .arr [] }) "m" "openai") "n" = some (.num 1) ∧
    jGet (specPayload [] (some [("n", .num 5)]) { messages := .arr [] } "m")
      "n" = some (.num 5) :=
  ⟨rfl, rfl⟩

/-- C3 (amended): the outbound payload is `global_params`, overridden by
`model_params[outbound_model]`, overridden by every request field that is
*non-null after validation* — `n` defaults to 1 and `stream` to `false`, so
those two are taken from the request even when the caller did not supply
them, while a field supplied as `null` (and any other unsupplied field) is
not — with the payload's `model` then overwritten to the resolved outbound
model and `stream`/`stream_options` forced per protocol. -/
theorem payload_C3_amended (gp : List (String × JVal))
    (mp : Option (List (String × JVal))) (c : CallerRequest)
    (modelId protocol : String) :
    jGet (buildPayload gp mp (validate c) modelId protocol) "model"
      = some (.str modelId) ∧
    (protocol = "v1-messages" →
      jGet (buildPayload gp mp (validate c) modelId protocol) "stream"
        = some (.bool false)) ∧
    (protocol ≠ "v1-messages" →
      jGet (buildPayload gp mp (validate c) modelId protocol) "stream"
          = some (.bool true) ∧
      jGet (buildPayload gp mp (validate c) modelId protocol) "stream_options"
          = some (.obj [("include_usage", .bool true)])) ∧
    (∀ k, k ≠ "model" → k ≠ "stream" → k ≠ "stream_options" →
      jGet (buildPayload gp mp (validate c) modelId protocol) k =
        oOr (jGet (dumpExcludeNone (validate c)) k)
          (oOr (jGet (mp.getD []) k) (jGet gp k))) ∧
    jGet (dumpExcludeNone (validate c)) "n" =
      (match c.n with
       | .given v => some v
       | .null => none
       | .absent => some (.num 1)) ∧
    jGet (dumpExcludeNone (validate c)) "stream" =
      (match c.stream with
       | .given v => some v
       | .null => none
       | .absent => some (.bool false)) ∧
    jGet (dumpExcludeNone (validate c)) "temperature" =
      (match c.temperature with
       | .given v => some v
       | _ => none) := by
  refine ⟨?_, ?_, ?_, ?_, ?_, ?_, ?_⟩
  · unfold buildPayload
    split
    · rw [jGet_dSet_other _ _ _ _ (by decide), jGet_dSet_same]
    · rw [jGet_dSet_other _ _ _ _ (by decide),
        jGet_dSet_other _ _ _ _ (by decide), jGet_dSet_same]
  · intro hp
    unfold buildPayload
    rw [if_pos hp, jGet_dSet_same]
  · intro hp
    unfold buildPayload
    rw [if_neg hp]
    exact ⟨by rw [jGet_dSet_other _ _ _ _ (by decide), jGet_dSet_same],
      by rw [jGet_dSet_same]⟩
  · intro k h1 h2 h3
    unfold buildPayload
    split
    · rw [jGet_dSet_other _ _ _ _ h2, jGet_dSet_other _ _ _ _ h1, jGet_merged]
    · rw [jGet_dSet_other _ _ _ _ h3, jGet_dSet_other _ _ _ _ h2,
        jGet_dSet_other _ _ _ _ h1, jGet_merged]
  · cases hn : c.n <;>
      simp [dumpExcludeNone, jGet_append, jGet_optEntry, jGet_single,
        jGet_cons, oOr, validate, validateField, hn]
  · cases hs : c.stream <;>
      simp [dumpExcludeNone, jGet_append, jGet_optEntry, jGet_single,
        jGet_cons, oOr, validate, validateField, hs]
  · cases ht : c.temperature <;>
      simp [dumpExcludeNone, jGet_append, jGet_optEntry, jGet_single,
        jGet_cons, oOr, validate, validateField, ht]

/-- Witness for the amended C3 at a concrete configuration. -/
theorem payload_C3_amended_witness :
    jGet (buildPayload [("temperature", .num 1)] none
      (validate { messages := .arr [] }) "gpt" "openai") "model"
      = some (.str "gpt") ∧
    (jGet (buildPayload [("temperature", .num 1)] none
      (validate { messages := .arr [] }) "gpt" "openai") "stream"
      = some (.bool true) ∧
    jGet (buildPayload [("temperature", .num 1)] none
      (validate { messages := .arr [] }) "gpt" "openai") "stream_options"
      = some (.obj [("include_usage", .bool true)])) ∧
    jGet (buildPayload [("temperature", .num 1)] none
      (validate { messages := .arr [] }) "gpt" "openai") "temperature" =
      oOr (jGet (dumpExcludeNone (validate { messages := .arr [] }))
          "temperature")
        (oOr (jGet ((none : Option (List (String × JVal))).getD [])
          "temperature") (jGet [("temperature", JVal.num 1)] "temperature")) := by
  have h := payload_C3_amended [("temperature", .num 1)] none
    { messages := .arr [] } "gpt" "openai"
  exact ⟨h.1, h.2.2.1 (by decide),
    h.2.2.2.1 "temperature" (by decide) (by decide) (by decide)⟩

/-! ## `json.loads` / `json.dumps`

A strict JSON reader over character lists, fuel-indexed so concrete parses
reduce in the kernel (the fuel `2·length + 4` over-approximates the number
of recursive calls, each of which consumes input).  Mirrors CPython's
strict defaults: invalid escapes, control characters in strings, leading
zeros and trailing garbage all fail. -/

def jWsChar (c : Char) : Bool := c = ' ' || c = '\t' || c = '\n' || c = '\r'

def jWs (l : List Char) : List Char := l.dropWhile jWsChar

def digitsToNat (l : List Char) : Nat :=
  l.foldl (fun n c => 10 * n + (c.toNat - 48)) 0

/-- U+FFFD, the Unicode replacement character. -/
def replChar : Char := Char.ofNat 0xFFFD

def hexVal (c : Char) : Option Nat :=
  if c.isDigit then some (c.toNat - 48)
  else if 'a' ≤ c ∧ c ≤ 'f' then some (c.toNat - 87)
  else if 'A' ≤ c ∧ c ≤ 'F' then some (c.toNat - 55)
  else none

/-- `\uXXXX` code units combine surrogate pairs; a lone surrogate (legal
for CPython, unrepresentable as a Lean `Char`) becomes U+FFFD. -/
def parseStrAux : Nat → List Char → List Char → Option (String × List Char)
  | 0, _, _ => none
  | f + 1, acc, l =>
    match l with
    | [] => none
    | '"' :: rest => some (.mk acc.reverse, rest)
    | '\\' :: e :: rest =>
      match e with
      | '"' => parseStrAux f ('"' :: acc) rest
      | '\\' => parseStrAux f ('\\' :: acc) rest
      | '/' => parseStrAux f ('/' :: acc) rest
      | 'n' => parseStrAux f ('\n' :: acc) rest
      | 't' => parseStrAux f ('\t' :: acc) rest
      | 'r' => parseStrAux f ('\r' :: acc) rest
      | 'b' => parseStrAux f ('\x08' :: acc) rest
      | 'f' => parseStrAux f ('\x0c' :: acc) rest
      | 'u' =>
        match rest with
        | h1 :: h2 :: h3 :: h4 :: rest2 =>
          match hexVal h1, hexVal h2, hexVal h3, hexVal h4 with
          | some a, some b, some c, some d =>
            let code := 4096 * a + 256 * b + 16 * c + d
            if 0xD800 ≤ code ∧ code ≤ 0xDBFF then
              match rest2 with
              | '\\' :: 'u' :: g1 :: g2 :: g3 :: g4 :: rest3 =>
                match hexVal g1, hexVal g2, hexVal g3, hexVal g4 with
                | some a', some b', some c', some d' =>
                  let code2 := 4096 * a' + 256 * b' + 16 * c' + d'
                  if 0xDC00 ≤ code2 ∧ code2 ≤ 0xDFFF then
                    parseStrAux f
                      (Char.ofNat
                        (0x10000 + (code - 0xD800) * 1024 + (code2 - 0xDC00))
                        :: acc) rest3
                  else parseStrAux f (replChar :: acc) rest2
                | _, _, _, _ => parseStrAux f (replChar :: acc) rest2
              | _ => parseStrAux f (replChar :: acc) rest2
            else if 0xDC00 ≤ code ∧ code ≤ 0xDFFF then
              parseStrAux f (replChar :: acc) rest2
            else parseStrAux f (Char.ofNat code :: acc) rest2
          | _, _, _, _ => none
        | _ => none
      | _ => none
    | c :: rest =>
      if c.toNat < 32 then none else parseStrAux f (c :: acc) rest

/-- JSON number (int or float): both become a rational. -/
def parseNum (l : List Char) : Option (JVal × List Char) :=
  let (neg, l1) := match l with
    | '-' :: t => (true, t)
    | _ => (false, l)
  let intDigits := l1.takeWhile Char.isDigit
  let l2 := l1.dropWhile Char.isDigit
  if intDigits = [] then none
  else if intDigits.length > 1 ∧ intDigits.head? = some '0' then none
  else
    let (fracDigits, l3) := match l2 with
      | '.' :: t =>
        (t.takeWhile Char.isDigit, (t.dropWhile Char.isDigit : List Char))
      | _ => ([], l2)
    if l2 ≠ l3 ∧ fracDigits = [] then none
    else
      let (hasExp, expNeg, expDigits, l4) := match l3 with
        | 'e' :: '-' :: t => (true, true, t.takeWhile Char.isDigit,
            t.dropWhile Char.isDigit)
        | 'e' :: '+' :: t => (true, false, t.takeWhile Char.isDigit,
            t.dropWhile Char.isDigit)
        | 'e' :: t => (true, false, t.takeWhile Char.isDigit,
            t.dropWhile Char.isDigit)
        | 'E' :: '-' :: t => (true, true, t.takeWhile Char.isDigit,
            t.dropWhile Char.isDigit)
        | 'E' :: '+' :: t => (true, false, t.takeWhile Char.isDigit,
            t.dropWhile Char.isDigit)
        | 'E' :: t => (true, false, t.takeWhile Char.isDigit,
            t.dropWhile Char.isDigit)
        | _ => (false, false, [], l3)
      if hasExp ∧ expDigits = [] then none
      else
        let mant : ℚ := (digitsToNat intDigits : ℚ) +
          (digitsToNat fracDigits : ℚ) / (10 : ℚ) ^ fracDigits.length
        let mant := if neg then -mant else mant
        let e := digitsToNat expDigits
        let q := if expNeg then mant / (10 : ℚ) ^ e else mant * (10 : ℚ) ^ e
        some (.num q, l4)

/-- Parser mode: a value, the elements of an array, or the fields of an
object (with the elements accumulated so far). -/
inductive PMode where
  | start
  | arrElems (acc : List JVal)
  | objFields (acc : List (String × JVal))

/-- One structurally fuel-recursive parser covering values, array element
lists and object field lists, so concrete parses reduce in the kernel. -/
def parseStep : Nat → PMode → List Char → Option (JVal × List Char)
  | 0, _, _ => none
  | f + 1, .start, l =>
    match jWs l with
    | [] => none
    | 'n' :: 'u' :: 'l' :: 'l' :: rest => some (.null, rest)
    | 't' :: 'r' :: 'u' :: 'e' :: rest => some (.bool true, rest)
    | 'f' :: 'a' :: 'l' :: 's' :: 'e' :: rest => some (.bool false, rest)
    | '"' :: rest =>
      match parseStrAux (rest.length + 1) [] rest with
      | some (s, rest2) => some (.str s, rest2)
      | none => none
    | '\x5b' :: rest =>
      match jWs rest with
      | '\x5d' :: rest2 => some (.arr [], rest2)
      | rest1 => parseStep f (.arrElems []) rest1
    | '\x7b' :: rest =>
      match jWs rest with
      | '\x7d' :: rest2 => some (.obj [], rest2)
      | rest1 => parseStep f (.objFields []) rest1
    | l1 => parseNum l1
  | f + 1, .arrElems acc, l =>
    match parseStep f .start l with
    | some (v, rest) =>
      match jWs rest with
      | ',' :: rest2 => parseStep f (.arrElems (v :: acc)) rest2
      | '\x5d' :: rest2 => some (.arr (v :: acc).reverse, rest2)
      | _ => none
    | none => none
  | f + 1, .objFields acc, l =>
    match jWs l with
    | '"' :: rest =>
      match parseStrAux (rest.length + 1) [] rest with
      | some (k, rest2) =>
        match jWs rest2 with
        | ':' :: rest3 =>
          match parseStep f .start rest3 with
          | some (v, rest4) =>
            match jWs rest4 with
            | ',' :: rest5 => parseStep f (.objFields ((k, v) :: acc)) rest5
            | '\x7d' :: rest5 => some (.obj ((k, v) :: acc).reverse, rest5)
            | _ => none
          | none => none
        | _ => none
      | none => none
    | _ => none

def parseVal (f : Nat) (l : List Char) : Option (JVal × List Char) :=
  parseStep f .start l

/-- `json.loads`: parse one value, allow trailing whitespace only. -/
def pyJsonLoads (s : String) : Option JVal :=
  match parseVal (2 * s.length + 4) s.data with
  | some (v, rest) => if jWs rest = [] then some v else none
  | none => none

/-- `json.dumps` string escaping (`ensure_ascii=True`). -/
def hexDigitChar (n : Nat) : Char :=
  if n < 10 then Char.ofNat (48 + n) else Char.ofNat (87 + n)

def hex4 (n : Nat) : String :=
  .mk [hexDigitChar (n / 4096 % 16), hexDigitChar (n / 256 % 16),
    hexDigitChar (n / 16 % 16), hexDigitChar (n % 16)]

def escChar (c : Char) : String :=
  if c = '"' then "\\\""
  else if c = '\\' then "\\\\"
  else if c = '\n' then "\\n"
  else if c = '\r' then "\\r"
  else if c = '\t' then "\\t"
  else if c.toNat = 8 then "\\b"
  else if c.toNat = 12 then "\\f"
  else if c.toNat < 32 ∨ 126 < c.toNat then
    if c.toNat < 65536 then "\\u" ++ hex4 c.toNat
    else
      "\\u" ++ hex4 (0xD800 + (c.toNat - 65536) / 1024) ++
      "\\u" ++ hex4 (0xDC00 + (c.toNat - 65536) % 1024)
  else .mk [c]

mutual

/-- `json.dumps` with default separators.  Integral numbers render exactly;
non-integral ones approximate CPython's shortest float repr by the raw
rational — no theorem evaluates that branch. -/
def jDump : JVal → String
  | .null => "null"
  | .bool true => "true"
  | .bool false => "false"
  | .num q => if q.den = 1 then toString q.num else toString q
  | .str s => "\"" ++ String.join (s.data.map escChar) ++ "\""
  | .arr xs => "\x5b" ++ jDumpList xs ++ "\x5d"
  | .obj fs => "\x7b" ++ jDumpFields fs ++ "\x7d"

def jDumpList : List JVal → String
  | [] => ""
  | [x] => jDump x
  | x :: y :: rest => jDump x ++ ", " ++ jDumpList (y :: rest)

def jDumpFields : List (String × JVal) → String
  | [] => ""
  | [p] => "\"" ++ String.join (p.1.data.map escChar) ++ "\": " ++ jDump p.2
  | p :: q :: rest =>
      "\"" ++ String.join (p.1.data.map escChar) ++ "\": " ++ jDump p.2 ++
      ", " ++ jDumpFields (q :: rest)

end

/-! ## Stream aggregation state and the openai finaliser
(`_call_upstream`, lines 1165–1301)

`aggregated_tool_calls` is a dict keyed by the chunk's `index` value; SSE
indexes are JSON numbers, so the key is modelled as `Option ℚ` (`none` for
a missing index; CPython's `sorted` would raise on `None` or mixed keys,
which the sort below avoids by reading `none` as 0 — theorems about
ordering assume numeric indexes).  Name/argument fragments are
concatenated strings. -/

structure ToolAcc where
  tid : JVal
  ttype : JVal
  fname : String
  fargs : String

structure AggSt where
  content : String := ""
  toolCalls : List (Option ℚ × ToolAcc) := []
  finish : Option JVal := none
  usage : Option JVal := none
  buffer : List Char := []

def keyQ (k : Option ℚ) : ℚ := k.getD 0

def insertAsc (x : Option ℚ × ToolAcc) :
    List (Option ℚ × ToolAcc) → List (Option ℚ × ToolAcc)
  | [] => [x]
  | y :: ys => if keyQ x.1 < keyQ y.1 then x :: y :: ys else y :: insertAsc x ys

/-- `for i in sorted(aggregated_tool_calls.keys())`. -/
def sortToolsAsc (l : List (Option ℚ × ToolAcc)) : List (Option ℚ × ToolAcc) :=
  l.foldl (fun acc x => insertAsc x acc) []

def toolObj (t : ToolAcc) : JVal :=
  .obj [("id", t.tid), ("type", t.ttype),
    ("function", .obj [("name", .str t.fname), ("arguments", .str t.fargs)])]

/-- The tail of the openai path after the stream is drained: the
`retry_on_empty` check, then the construction of the final response. -/
def finalizeOpenai (retryOnEmpty : Bool) (localPromptTokens : Nat)
    (countText : String → Nat) (nowTs : Nat) (modelId : String)
    (st : AggSt) : Except (List Char) JVal :=
  if st.content = "" ∧ st.toolCalls.isEmpty = true ∧ retryOnEmpty = true then
    .error "Empty Response: Upstream returned empty content and no tool calls".data
  else
    let message : List (String × JVal) :=
      [("role", .str "assistant"),
       ("content", if st.content ≠ "" then .str st.content else .null)] ++
      (if st.toolCalls.isEmpty then []
       else
        [("tool_calls", .arr ((sortToolsAsc st.toolCalls).map
          (fun p => toolObj p.2)))])
    let usageSeen := match st.usage with
      | some u => jTruthy u
      | none => false
    let localCompletionTokens := if usageSeen then 0 else countText st.content
    let usageVal := match st.usage with
      | some u =>
        if jTruthy u then u
        else .obj [("prompt_tokens", .num localPromptTokens),
          ("completion_tokens", .num localCompletionTokens),
          ("total_tokens", .num (localPromptTokens + localCompletionTokens))]
      | none => .obj [("prompt_tokens", .num localPromptTokens),
          ("completion_tokens", .num localCompletionTokens),
          ("total_tokens", .num (localPromptTokens + localCompletionTokens))]
    let finishVal := match st.finish with
      | some v => if jTruthy v then v else .str "stop"
      | none => .str "stop"
    .ok (.obj [("id", .str ("chatcmpl-" ++ toString nowTs)),
      ("object", .str "chat.completion"), ("created", .num nowTs),
      ("model", .str modelId),
      ("choices", .arr [.obj [("index", .num 0), ("message", .obj message),
        ("finish_reason", finishVal)]]),
      ("usage", usageVal)])

/-! ## v1-messages response translation (`_call_upstream`, lines 992–1099)

The tokenizer is external (tiktoken); it enters as the two parameters
`countMsgsTokens` (tokens of the outbound messages) and `countTextTokens`.
`int(time.time())` is the parameter `nowTs`. -/

/-- Text and tool-call extraction from an Anthropic `content` value.
(A non-string `text` value would raise in CPython; modelled as "".) -/
def v1ContentParts (contentRaw : JVal) : String × List JVal :=
  match contentRaw with
  | .str s => (s, [])
  | .arr items =>
    items.foldl (fun (acc : String × List JVal) item =>
      match item with
      | .obj fields =>
        match jGet fields "type" with
        | some (.str "text") =>
          (acc.1 ++ (match jGet fields "text" with
            | some (.str s) => s
            | _ => ""), acc.2)
        | some (.str "tool_use") =>
          (acc.1, acc.2 ++ [.obj [("id", (jGet fields "id").getD .null),
            ("type", .str "function"),
            ("function", .obj [("name", (jGet fields "name").getD .null),
              ("arguments",
                .str (jDump ((jGet fields "input").getD (.obj []))))])]])
        | _ => acc
      | _ => acc) ("", [])
  | _ => ("", [])

def numOrZero (v : Option JVal) : ℚ :=
  match v with
  | some (.num q) => q
  | _ => 0

/-- `usage.pop(old)` followed by `usage[new] = value`. -/
def renameKey (fs : List (String × JVal)) (old new : String) :
    List (String × JVal) :=
  match jGet fs old with
  | some v => dSet (fs.filter (fun p => p.1 ≠ old)) new v
  | none => fs

def fixUsage (u : JVal) : JVal :=
  match u with
  | .obj fs =>
    let fs := renameKey fs "input_tokens" "prompt_tokens"
    let fs := renameKey fs "output_tokens" "completion_tokens"
    let fs := if (jGet fs "total_tokens").isSome then fs
      else fs ++ [("total_tokens",
        .num (numOrZero (jGet fs "prompt_tokens") +
          numOrZero (jGet fs "completion_tokens")))]
    .obj fs
  | other => other

/-- The `v1/messages → OpenAI` response mapping: applied only when the body
has `content` but no `choices`; other bodies pass through unchanged. -/
def translateV1 (countMsgsTokens : Nat) (countTextTokens : String → Nat)
    (nowTs : Nat) (modelId : String) (responseData : JVal) : JVal :=
  match responseData with
  | .obj fields =>
    if (jGet fields "choices").isNone ∧ (jGet fields "content").isSome then
      let parts := v1ContentParts ((jGet fields "content").getD .null)
      let message : List (String × JVal) :=
        [("role", (jGet fields "role").getD (.str "assistant")),
         ("content", if parts.1 ≠ "" then .str parts.1 else .null)] ++
        (if parts.2.isEmpty then [] else [("tool_calls", .arr parts.2)])
      .obj [("id", (jGet fields "id").getD
          (.str ("msg_" ++ toString nowTs))),
        ("object", .str "chat.completion"), ("created", .num nowTs),
        ("model", (jGet fields "model").getD (.str modelId)),
        ("choices", .arr [.obj [("index", .num 0),
          ("message", .obj message),
          ("finish_reason", (jGet fields "stop_reason").getD (.str "stop"))]]),
        ("usage", fixUsage ((jGet fields "usage").getD
          (.obj [("prompt_tokens", .num countMsgsTokens),
            ("completion_tokens", .num (countTextTokens parts.1)),
            ("total_tokens", .num 0)])))]
    else responseData
  | other => other

/-- The v1-messages path after a 200: translate and return — there is no
`retry_on_empty` consultation on this protocol (the flag parameter is
carried only to state that fact). -/
def v1After200 (retryOnEmpty : Bool) (countMsgsTokens : Nat)
    (countTextTokens : String → Nat) (nowTs : Nat) (modelId : String)
    (responseData : JVal) : Except (List Char) JVal :=
  .ok (translateV1 countMsgsTokens countTextTokens nowTs modelId responseData)

/-- `choices[0].message` of a chat-completion object. -/
def respMessage (r : JVal) : Option JVal :=
  match r with
  | .obj fs =>
    match jGet fs "choices" with
    | some (.arr (c0 :: _)) =>
      match c0 with
      | .obj cfs => jGet cfs "message"
      | _ => none
    | _ => none
  | _ => none

/-- C4 counterexample: with `retry_on_empty = true`, a v1-messages 200 body
with an empty content list (no text, no tool use) is translated and
returned as a success whose message has null content and no tool_calls —
while the openai path classifies the very same emptiness as a retryable
Empty Response failure. -/
theorem empty_retry_C4_counterexample :
    v1After200 true 7 (fun _ => 0) 11 "m"
        (.obj [("content", .arr []), ("role", .str "assistant")]) =
      .ok (translateV1 7 (fun _ => 0) 11 "m"
        (.obj [("content", .arr []), ("role", .str "assistant")])) ∧
    respMessage (translateV1 7 (fun _ => 0) 11 "m"
        (.obj [("content", .arr []), ("role", .str "assistant")])) =
      some (.obj [("role", .str "assistant"), ("content", .null)]) ∧
    finalizeOpenai true 7 (fun _ => 0) 11 "m"
        { content := "", toolCalls := [], finish := none, usage := none,
          buffer := [] } =
      .error
        "Empty Response: Upstream returned empty content and no tool calls".data :=
  ⟨rfl, rfl, rfl⟩

/-- C4 (amended): only the openai streaming path implements the
`retry_on_empty` condition — there a 200 yielding neither content nor tool
calls is a retryable Empty Response failure iff the flag is set.  The
v1-messages path performs no empty check: a 200 yielding neither text nor
tool use blocks is returned as a success with null content and no
tool_calls, whatever the flag. -/
theorem empty_retry_C4_amended :
    (∀ (flag : Bool) (lpt : Nat) (ct : String → Nat) (ts : Nat) (mid : String)
        (st : AggSt),
      (∃ e, finalizeOpenai flag lpt ct ts mid st = .error e) ↔
        (flag = true ∧ st.content = "" ∧ st.toolCalls.isEmpty = true)) ∧
    (∀ (flag : Bool) (cmt : Nat) (ctt : String → Nat) (ts : Nat) (mid : String)
        (fields : List (String × JVal)),
      jGet fields "choices" = none →
      (jGet fields "content").isSome = true →
      v1ContentParts ((jGet fields "content").getD .null) = ("", []) →
      v1After200 flag cmt ctt ts mid (.obj fields) =
        .ok (translateV1 cmt ctt ts mid (.obj fields)) ∧
      ∃ mfs, respMessage (translateV1 cmt ctt ts mid (.obj fields)) =
          some (.obj mfs) ∧
        jGet mfs "content" = some .null ∧ jGet mfs "tool_calls" = none) := by
  constructor
  · intro flag lpt ct ts mid st
    constructor
    · rintro ⟨e, he⟩
      unfold finalizeOpenai at he
      split at he
      · rename_i hcond
        exact ⟨hcond.2.2, hcond.1, hcond.2.1⟩
      · simp at he
    · rintro ⟨hf, hc, ht⟩
      refine ⟨"Empty Response: Upstream returned empty content and no tool calls".data, ?_⟩
      unfold finalizeOpenai
      rw [if_pos ⟨hc, ht, hf⟩]
  · intro flag cmt ctt ts mid fields hchoices hcontent hparts
    have hcond : (jGet fields "choices").isNone = true := by rw [hchoices]; rfl
    refine ⟨rfl, [("role", (jGet fields "role").getD (.str "assistant")),
      ("content", .null)], ?_, by simp [jGet], by simp [jGet]⟩
    simp only [translateV1, hcond, hcontent, hparts, respMessage]
    simp [respMessage, jGet]

/-- Witness for the amended C4: the openai finaliser rejects an empty
aggregate when the flag is set; the v1-messages path returns an empty-body
200 as success. -/
theorem empty_retry_C4_amended_witness :
    (∃ e, finalizeOpenai true 3 (fun _ => 0) 9 "x"
      { content := "", toolCalls := [], finish := none, usage := none,
        buffer := [] } = .error e) ∧
    (v1After200 false 3 (fun _ => 0) 9 "x" (.obj [("content", .str "")]) =
      .ok (translateV1 3 (fun _ => 0) 9 "x" (.obj [("content", .str "")])) ∧
     ∃ mfs, respMessage (translateV1 3 (fun _ => 0) 9 "x"
        (.obj [("content", .str "")])) = some (.obj mfs) ∧
       jGet mfs "content" = some .null ∧ jGet mfs "tool_calls" = none) :=
  ⟨(empty_retry_C4_amended.1 true 3 (fun _ => 0) 9 "x" _).mpr ⟨rfl, rfl, rfl⟩,
   empty_retry_C4_amended.2 false 3 (fun _ => 0) 9 "x" [("content", .str "")]
     rfl rfl rfl⟩

/-! ## ProtocolAdapter: `_convert_to_anthropic_messages` (lines 308–445)

Messages are the typed view of the raw dicts (`OAMsg`); an output message
is a role plus a JSON content value.  `targs` is the tool call's
`function.arguments` string (default `"{}"` via `func.get`); a non-string
value there behaves exactly like malformed JSON (the bare `except` turns
both into `{}`). -/

structure AMsg where
  role : String
  content : JVal

structure ConvSt where
  system : Option String := none
  msgs : List AMsg := []
  buffer : List JVal := []

def toolUseBlock (tc : OAToolCall) : JVal :=
  .obj [("type", .str "tool_use"), ("id", tc.tid), ("name", tc.tname),
    ("input", match pyJsonLoads tc.targs with
      | some v => v
      | none => .obj [])]

def toolResultBlock (m : OAMsg) : JVal :=
  .obj [("type", .str "tool_result"), ("tool_use_id", m.tool_call_id),
    ("content", .str (extractText m.content))]

/-- `flush_tool_buffer`. -/
def flushBuf (st : ConvSt) : ConvSt :=
  if st.buffer.isEmpty then st
  else
    match st.msgs.getLast? with
    | some last =>
      if last.role = "user" then
        match last.content with
        | .arr l =>
          { st with msgs := st.msgs.dropLast ++
              [⟨"user", .arr (l ++ st.buffer)⟩], buffer := [] }
        | .str s =>
          { st with msgs := st.msgs.dropLast ++
              [⟨"user", .arr (.obj [("type", .str "text"), ("text", .str s)]
                :: st.buffer)⟩], buffer := [] }
        | _ => { st with buffer := [] }
      else
        { st with msgs := st.msgs ++ [⟨"user", .arr st.buffer⟩], buffer := [] }
    | none =>
      { st with msgs := st.msgs ++ [⟨"user", .arr st.buffer⟩], buffer := [] }

/-- The body of the `for msg in openai_messages` loop. -/
def convStep (st : ConvSt) (m : OAMsg) : ConvSt :=
  if m.role = "system" then
    let text := extractText m.content
    { st with system := some (match st.system with
        | some s => s ++ "\n" ++ text
        | none => text) }
  else
    let st := if m.role ≠ "tool" then flushBuf st else st
    if m.role = "user" then
      match st.msgs.getLast? with
      | some last =>
        if last.role = "user" then
          let newText := extractText m.content
          match last.content with
          | .str s =>
            { st with msgs := st.msgs.dropLast ++
                [⟨"user", .str (s ++ "\n" ++ newText)⟩] }
          | .arr l =>
            { st with msgs := st.msgs.dropLast ++
                [⟨"user", .arr (l ++ [.obj [("type", .str "text"),
                  ("text", .str newText)]])⟩] }
          | _ => st
        else { st with msgs := st.msgs ++ [⟨"user", m.content⟩] }
      | none => { st with msgs := st.msgs ++ [⟨"user", m.content⟩] }
    else if m.role = "assistant" then
      { st with msgs := st.msgs ++ [⟨"assistant", .arr
          ((if jTruthy m.content then
              [.obj [("type", .str "text"), ("text", m.content)]]
            else []) ++ m.tool_calls.map toolUseBlock)⟩] }
    else if m.role = "tool" then
      { st with buffer := st.buffer ++ [toolResultBlock m] }
    else st

/-- `_convert_to_anthropic_messages`: fold the loop, final flush, return
the system string and the message list. -/
def convertToAnthropic (messages : List OAMsg) : Option String × List AMsg :=
  let st := flushBuf (messages.foldl convStep {})
  (st.system, st.msgs)

/-- C5: per-message translation for a v1-messages provider.  (a) An
assistant message becomes an assistant message (after any pending tool
results are flushed) whose content is a list with a leading text block
exactly when its content is truthy, followed by one `tool_use` block per
tool_call, arguments parsed from JSON with malformed arguments becoming
`{}`.  (b) A tool message is buffered as a `tool_result` block carrying
its `tool_call_id` and textified content.  (c) Processing any non-tool,
non-system message leaves an empty buffer, and a non-empty buffer is
flushed by merging into the last message when it is a `user` message
(extending list content, upgrading string content to a list) and otherwise
appended as a fresh `user` message. -/
theorem convert_C5 :
    (∀ (st : ConvSt) (m : OAMsg), m.role = "assistant" →
      convStep st m = { flushBuf st with
        msgs := (flushBuf st).msgs ++ [⟨"assistant", .arr
          ((if jTruthy m.content then
              [.obj [("type", .str "text"), ("text", m.content)]]
            else []) ++
            m.tool_calls.map (fun tc =>
              .obj [("type", .str "tool_use"), ("id", tc.tid),
                ("name", tc.tname),
                ("input", match pyJsonLoads tc.targs with
                  | some v => v
                  | none => .obj [])]))⟩] }) ∧
    (∀ (st : ConvSt) (m : OAMsg), m.role = "tool" →
      convStep st m = { st with buffer := st.buffer ++
        [.obj [("type", .str "tool_result"),
          ("tool_use_id", m.tool_call_id),
          ("content", .str (extractText m.content))]] }) ∧
    (∀ (st : ConvSt) (m : OAMsg), m.role ≠ "tool" → m.role ≠ "system" →
      (convStep st m).buffer = []) ∧
    (∀ (st : ConvSt) (pre : List AMsg) (l : List JVal),
      st.buffer ≠ [] → st.msgs = pre ++ [⟨"user", .arr l⟩] →
      flushBuf st =
        ConvSt.mk st.system (pre ++ [⟨"user", .arr (l ++ st.buffer)⟩]) []) ∧
    (∀ (st : ConvSt) (pre : List AMsg) (s : String),
      st.buffer ≠ [] → st.msgs = pre ++ [⟨"user", .str s⟩] →
      flushBuf st = ConvSt.mk st.system (pre ++
        [⟨"user", .arr (.obj [("type", .str "text"), ("text", .str s)]
          :: st.buffer)⟩]) []) ∧
    (∀ (st : ConvSt) (pre : List AMsg) (lastMsg : AMsg),
      st.buffer ≠ [] → st.msgs = pre ++ [lastMsg] → lastMsg.role ≠ "user" →
      flushBuf st =
        ConvSt.mk st.system (st.msgs ++ [⟨"user", .arr st.buffer⟩]) []) ∧
    (∀ st : ConvSt, st.buffer ≠ [] → st.msgs = [] →
      flushBuf st = ConvSt.mk st.system [⟨"user", .arr st.buffer⟩] []) := by
  have flushBuf_buffer : ∀ st : ConvSt, (flushBuf st).buffer = [] := by
    intro st
    unfold flushBuf
    split
    · rename_i h
      exact List.isEmpty_iff.mp h
    · split
      · split
        · split <;> rfl
        · rfl
      · rfl
  refine ⟨?_, ?_, ?_, ?_, ?_, ?_, ?_⟩
  · intro st m h
    have hfun : toolUseBlock = (fun tc : OAToolCall =>
        JVal.obj [("type", .str "tool_use"), ("id", tc.tid),
          ("name", tc.tname),
          ("input", match pyJsonLoads tc.targs with
            | some v => v
            | none => .obj [])]) := by
      funext tc
      unfold toolUseBlock
      cases pyJsonLoads tc.targs <;> rfl
    simp only [convStep, h, eq_false (show ¬("assistant" = "system") by decide),
      eq_true (show ("assistant" : String) ≠ "tool" by decide),
      eq_false (show ¬("assistant" = "user") by decide),
      eq_true (show ("assistant" : String) = "assistant" from rfl),
      if_true, if_false, hfun]
  · intro st m h
    simp only [convStep, h, eq_false (show ¬("tool" = "system") by decide),
      eq_false (show ¬(("tool" : String) ≠ "tool") by decide),
      eq_false (show ¬("tool" = "user") by decide),
      eq_false (show ¬("tool" = "assistant") by decide),
      eq_true (show ("tool" : String) = "tool" from rfl),
      if_true, if_false]
    rfl
  · intro st m h1 h2
    simp only [convStep, eq_false h2, eq_true h1, if_true, if_false]
    by_cases hu : m.role = "user"
    · simp only [eq_true hu, if_true]
      cases hlast : (flushBuf st).msgs.getLast? with
      | none => simp [flushBuf_buffer st]
      | some last =>
        by_cases hl : last.role = "user"
        · simp only [hlast, eq_true hl, if_true]
          cases last.content <;> simp [flushBuf_buffer st]
        · simp [hlast, eq_false hl, flushBuf_buffer st]
    · simp only [eq_false hu, if_false]
      by_cases ha : m.role = "assistant"
      · simp [eq_true ha, flushBuf_buffer st]
      · have ht : (m.role = "tool") = False := eq_false h1
        simp [eq_false ha, ht, flushBuf_buffer st]
  · intro st pre l hbuf hmsgs
    unfold flushBuf
    rw [if_neg (by simpa [List.isEmpty_iff] using hbuf), hmsgs,
      List.getLast?_concat]
    simp [List.dropLast_concat]
  · intro st pre s hbuf hmsgs
    unfold flushBuf
    rw [if_neg (by simpa [List.isEmpty_iff] using hbuf), hmsgs,
      List.getLast?_concat]
    simp [List.dropLast_concat]
  · intro st pre lastMsg hbuf hmsgs hrole
    unfold flushBuf
    rw [if_neg (by simpa [List.isEmpty_iff] using hbuf), hmsgs,
      List.getLast?_concat]
    simp [eq_false hrole, hmsgs]
  · intro st hbuf hmsgs
    unfold flushBuf
    rw [if_neg (by simpa [List.isEmpty_iff] using hbuf), hmsgs]
    simp

/-- Witness for C5 at the spec's concrete scenario pieces: an assistant
message carrying one tool call with arguments `{"x": 1}`, a tool response
message, and a flush into an existing user message. -/
theorem convert_C5_witness :
    convStep (ConvSt.mk (some "S") [] [])
      (OAMsg.mk "assistant" .null
        [OAToolCall.mk (.str "t1") (.str "f") "\x7b\"x\": 1\x7d"] .null) =
      { flushBuf (ConvSt.mk (some "S") [] []) with
        msgs := (flushBuf (ConvSt.mk (some "S") [] [])).msgs ++
          [⟨"assistant", .arr
            ((if jTruthy (JVal.null) then
                [.obj [("type", .str "text"), ("text", JVal.null)]]
              else []) ++
              [OAToolCall.mk (.str "t1") (.str "f")
                  "\x7b\"x\": 1\x7d"].map (fun tc =>
                .obj [("type", .str "tool_use"), ("id", tc.tid),
                  ("name", tc.tname),
                  ("input", match pyJsonLoads tc.targs with
                    | some v => v
                    | none => .obj [])]))⟩] } ∧
    convStep (ConvSt.mk none [⟨"assistant", .arr []⟩] [])
      (OAMsg.mk "tool" (.str "42") [] (.str "t1")) =
      { ConvSt.mk none [⟨"assistant", .arr []⟩] [] with
        buffer := [] ++ [.obj [("type", .str "tool_result"),
          ("tool_use_id", .str "t1"),
          ("content", .str (extractText (.str "42")))]] } ∧
    flushBuf (ConvSt.mk none [⟨"user", .arr []⟩] [.obj []]) =
      ConvSt.mk none ([] ++ [⟨"user", .arr ([] ++ [.obj []])⟩]) [] :=
  ⟨convert_C5.1 _ _ rfl,
   convert_C5.2.1 _ _ rfl,
   convert_C5.2.2.2.1 _ [] [] (by simp) rfl⟩

/-! ## C2: the openai SSE stream loop (`_call_upstream`, lines 1176–1262)

Byte chunks are decoded independently of each other: `chunk.decode("utf-8")`
with `chunk.decode("utf-8", errors="replace")` as the fallback when strict
decoding raises.  The replace decoder agrees with the strict one whenever
the chunk is valid UTF-8, so the model decodes every chunk with CPython's
replace semantics: each maximal subpart of an ill-formed sequence becomes
one U+FFFD.  Bytes are naturals below 256 (values ≥ 245 take the
invalid-byte branch).  Decoded text accumulates in `buffer`; complete lines
are split off at each `"\n"`, stripped, and handled as in lines 1195–1242:
blank lines, lines without the `data: ` prefix, `[DONE]` and malformed JSON
are skipped, the rest update the aggregation state.  A line parsing to a
non-object, a non-string `delta.content`, a truthy non-list `choices` or
`tool_calls`, a non-object `tc["function"]` and a non-numeric `index` all
raise uncaught TypeErrors/AttributeErrors in CPython (only
`json.JSONDecodeError` is caught); the model skips them and no theorem
exercises those branches. -/

def isCont (b : Nat) : Bool := 128 ≤ b && b < 192

def cont3ok (b b2 : Nat) : Bool :=
  if b = 224 then 160 ≤ b2 && b2 < 192
  else if b = 237 then 128 ≤ b2 && b2 < 160
  else isCont b2

def cont4ok (b b2 : Nat) : Bool :=
  if b = 240 then 144 ≤ b2 && b2 < 192
  else if b = 244 then 128 ≤ b2 && b2 < 144
  else isCont b2

/-- Decode one UTF-8 unit starting at byte `b`: the decoded character and
the remaining bytes.  Ill-formed input consumes the maximal subpart of a
valid sequence and yields U+FFFD. -/
def u8step (b : Nat) (rest : List Nat) : Char × List Nat :=
  if b < 128 then (Char.ofNat b, rest)
  else if b < 194 then (replChar, rest)
  else if b < 224 then
    match rest with
    | b2 :: r2 =>
      if isCont b2 then (Char.ofNat ((b - 192) * 64 + (b2 - 128)), r2)
      else (replChar, rest)
    | [] => (replChar, [])
  else if b < 240 then
    match rest with
    | b2 :: r2 =>
      if cont3ok b b2 then
        match r2 with
        | b3 :: r3 =>
          if isCont b3 then
            (Char.ofNat ((b - 224) * 4096 + (b2 - 128) * 64 + (b3 - 128)), r3)
          else (replChar, r2)
        | [] => (replChar, [])
      else (replChar, rest)
    | [] => (replChar, [])
  else if b < 245 then
    match rest with
    | b2 :: r2 =>
      if cont4ok b b2 then
        match r2 with
        | b3 :: r3 =>
          if isCont b3 then
            match r3 with
            | b4 :: r4 =>
              if isCont b4 then
                (Char.ofNat ((b - 240) * 262144 + (b2 - 128) * 4096 +
                  (b3 - 128) * 64 + (b4 - 128)), r4)
              else (replChar, r3)
            | [] => (replChar, [])
          else (replChar, r2)
        | [] => (replChar, [])
      else (replChar, rest)
    | [] => (replChar, [])
  else (replChar, rest)

def utf8DecF : Nat → List Nat → List Char
  | 0, _ => []
  | _ + 1, [] => []
  | f + 1, b :: rest => (u8step b rest).1 :: utf8DecF f (u8step b rest).2

/-- `bytes.decode("utf-8", errors="replace")`. -/
def pyDecode (bs : List Nat) : List Char := utf8DecF bs.length bs

/-- A byte list that is valid UTF-8 in its entirety. -/
def validU8 : List Nat → Bool
  | [] => true
  | b :: r =>
    if b < 128 then validU8 r
    else if b < 194 then false
    else if b < 224 then
      match r with
      | b2 :: r2 => isCont b2 && validU8 r2
      | [] => false
    else if b < 240 then
      match r with
      | b2 :: b3 :: r3 => cont3ok b b2 && isCont b3 && validU8 r3
      | _ => false
    else if b < 245 then
      match r with
      | b2 :: b3 :: b4 :: r4 =>
        cont4ok b b2 && isCont b3 && isCont b4 && validU8 r4
      | _ => false
    else false

theorem u8step_len (b : Nat) (rest : List Nat) :
    (u8step b rest).2.length ≤ rest.length := by
  unfold u8step
  repeat' split
  all_goals dsimp only
  all_goals try simp only [List.length_cons, List.length_nil]
  all_goals omega

theorem utf8DecF_congr :
    ∀ (f1 f2 : Nat) (bs : List Nat), bs.length ≤ f1 → bs.length ≤ f2 →
      utf8DecF f1 bs = utf8DecF f2 bs
  | 0, f2, bs, h1, _ => by
    have hb : bs = [] := List.eq_nil_of_length_eq_zero (Nat.le_zero.mp h1)
    subst hb
    cases f2 <;> rfl
  | _ + 1, f2, [], _, _ => by cases f2 <;> rfl
  | _ + 1, 0, _ :: _, _, h2 => by simp at h2
  | f1 + 1, f2 + 1, b :: bs, h1, h2 => by
    simp only [utf8DecF]
    have hl := u8step_len b bs
    simp only [List.length_cons] at h1 h2
    rw [utf8DecF_congr f1 f2 (u8step b bs).2 (by omega) (by omega)]

theorem pyDecode_cons (b : Nat) (rest : List Nat) :
    pyDecode (b :: rest) = (u8step b rest).1 :: pyDecode (u8step b rest).2 := by
  show utf8DecF (b :: rest).length (b :: rest) = _
  simp only [List.length_cons, utf8DecF]
  rw [utf8DecF_congr rest.length (u8step b rest).2.length (u8step b rest).2
    (u8step_len b rest) le_rfl]
  rfl

theorem u8step_ascii (b : Nat) (rest : List Nat) (h : b < 128) :
    u8step b rest = (Char.ofNat b, rest) := by
  unfold u8step
  rw [if_pos h]

theorem u8step_two (b b2 : Nat) (r : List Nat) (h1 : 194 ≤ b) (h2 : b < 224)
    (h3 : isCont b2 = true) :
    u8step b (b2 :: r) = (Char.ofNat ((b - 192) * 64 + (b2 - 128)), r) := by
  unfold u8step
  rw [if_neg (by omega), if_neg (by omega), if_pos h2]
  simp [h3]

theorem u8step_three (b b2 b3 : Nat) (r : List Nat) (h1 : 224 ≤ b)
    (h2 : b < 240) (h3 : cont3ok b b2 = true) (h4 : isCont b3 = true) :
    u8step b (b2 :: b3 :: r) =
      (Char.ofNat ((b - 224) * 4096 + (b2 - 128) * 64 + (b3 - 128)), r) := by
  unfold u8step
  rw [if_neg (by omega), if_neg (by omega), if_neg (by omega), if_pos h2]
  simp [h3, h4]

theorem u8step_four (b b2 b3 b4 : Nat) (r : List Nat) (h1 : 240 ≤ b)
    (h2 : b < 245) (h3 : cont4ok b b2 = true) (h4 : isCont b3 = true)
    (h5 : isCont b4 = true) :
    u8step b (b2 :: b3 :: b4 :: r) =
      (Char.ofNat ((b - 240) * 262144 + (b2 - 128) * 4096 +
        (b3 - 128) * 64 + (b4 - 128)), r) := by
  unfold u8step
  rw [if_neg (by omega), if_neg (by omega), if_neg (by omega),
    if_neg (by omega), if_pos h2]
  simp [h3, h4, h5]

theorem validU8_cons (b : Nat) (r : List Nat) :
    validU8 (b :: r) =
      (if b < 128 then validU8 r
      else if b < 194 then false
      else if b < 224 then
        match r with
        | b2 :: r2 => isCont b2 && validU8 r2
        | [] => false
      else if b < 240 then
        match r with
        | b2 :: b3 :: r3 => cont3ok b b2 && isCont b3 && validU8 r3
        | _ => false
      else if b < 245 then
        match r with
        | b2 :: b3 :: b4 :: r4 =>
          cont4ok b b2 && isCont b3 && isCont b4 && validU8 r4
        | _ => false
      else false) := by
  cases r with
  | nil => rfl
  | cons b2 r2 =>
    cases r2 with
    | nil => rfl
    | cons b3 r3 =>
      cases r3 with
      | nil => rfl
      | cons b4 r4 => rfl

theorem pyDecode_append :
    ∀ (n : Nat) (a bb : List Nat), a.length ≤ n → validU8 a = true →
      pyDecode (a ++ bb) = pyDecode a ++ pyDecode bb
  | _, [], _, _, _ => rfl
  | 0, _ :: _, _, hn, _ => by simp at hn
  | n + 1, b :: r, bb, hn, h => by
    simp only [List.length_cons] at hn
    rw [validU8_cons] at h
    by_cases h1 : b < 128
    · rw [if_pos h1] at h
      have e1 : pyDecode (b :: (r ++ bb)) =
          Char.ofNat b :: pyDecode (r ++ bb) := by
        rw [pyDecode_cons, u8step_ascii b _ h1]
      have e2 : pyDecode (b :: r) = Char.ofNat b :: pyDecode r := by
        rw [pyDecode_cons, u8step_ascii b _ h1]
      rw [List.cons_append, e1, e2, List.cons_append,
        pyDecode_append n r bb (by omega) h]
    · rw [if_neg h1] at h
      by_cases h2 : b < 194
      · rw [if_pos h2] at h
        exact absurd h (by simp)
      · rw [if_neg h2] at h
        by_cases h3 : b < 224
        · rw [if_pos h3] at h
          cases r with
          | nil => exact absurd h (by simp)
          | cons b2 r2 =>
            rw [Bool.and_eq_true] at h
            obtain ⟨hc, hv⟩ := h
            simp only [List.length_cons] at hn
            have e1 : pyDecode (b :: b2 :: (r2 ++ bb)) =
                Char.ofNat ((b - 192) * 64 + (b2 - 128)) ::
                  pyDecode (r2 ++ bb) := by
              rw [pyDecode_cons, u8step_two b b2 _ (by omega) h3 hc]
            have e2 : pyDecode (b :: b2 :: r2) =
                Char.ofNat ((b - 192) * 64 + (b2 - 128)) :: pyDecode r2 := by
              rw [pyDecode_cons, u8step_two b b2 _ (by omega) h3 hc]
            simp only [List.cons_append]
            rw [e1, e2, List.cons_append,
              pyDecode_append n r2 bb (by omega) hv]
        · rw [if_neg h3] at h
          by_cases h4 : b < 240
          · rw [if_pos h4] at h
            match r, h with
            | b2 :: b3 :: r3, h =>
              rw [Bool.and_eq_true, Bool.and_eq_true] at h
              obtain ⟨⟨hc2, hc3⟩, hv⟩ := h
              simp only [List.length_cons] at hn
              have e1 : pyDecode (b :: b2 :: b3 :: (r3 ++ bb)) =
                  Char.ofNat ((b - 224) * 4096 + (b2 - 128) * 64 +
                    (b3 - 128)) :: pyDecode (r3 ++ bb) := by
                rw [pyDecode_cons, u8step_three b b2 b3 _ (by omega) h4 hc2 hc3]
              have e2 : pyDecode (b :: b2 :: b3 :: r3) =
                  Char.ofNat ((b - 224) * 4096 + (b2 - 128) * 64 +
                    (b3 - 128)) :: pyDecode r3 := by
                rw [pyDecode_cons, u8step_three b b2 b3 _ (by omega) h4 hc2 hc3]
              simp only [List.cons_append]
              rw [e1, e2, List.cons_append,
                pyDecode_append n r3 bb (by omega) hv]
          · rw [if_neg h4] at h
            by_cases h5 : b < 245
            · rw [if_pos h5] at h
              match r, h with
              | b2 :: b3 :: b4 :: r4, h =>
                rw [Bool.and_eq_true, Bool.and_eq_true, Bool.and_eq_true] at h
                obtain ⟨⟨⟨hc2, hc3⟩, hc4⟩, hv⟩ := h
                simp only [List.length_cons] at hn
                have e1 : pyDecode (b :: b2 :: b3 :: b4 :: (r4 ++ bb)) =
                    Char.ofNat ((b - 240) * 262144 + (b2 - 128) * 4096 +
                      (b3 - 128) * 64 + (b4 - 128)) :: pyDecode (r4 ++ bb) := by
                  rw [pyDecode_cons,
                    u8step_four b b2 b3 b4 _ (by omega) h5 hc2 hc3 hc4]
                have e2 : pyDecode (b :: b2 :: b3 :: b4 :: r4) =
                    Char.ofNat ((b - 240) * 262144 + (b2 - 128) * 4096 +
                      (b3 - 128) * 64 + (b4 - 128)) :: pyDecode r4 := by
                  rw [pyDecode_cons,
                    u8step_four b b2 b3 b4 _ (by omega) h5 hc2 hc3 hc4]
                simp only [List.cons_append]
                rw [e1, e2, List.cons_append,
                  pyDecode_append n r4 bb (by omega) hv]
            · rw [if_neg h5] at h
              exact absurd h (by simp)

theorem pyDecode_append_of_valid (a bb : List Nat) (h : validU8 a = true) :
    pyDecode (a ++ bb) = pyDecode a ++ pyDecode bb :=
  pyDecode_append a.length a bb le_rfl h

theorem pyDecode_join (chunks : List (List Nat))
    (h : ∀ c ∈ chunks, validU8 c = true) :
    List.flatten (chunks.map pyDecode) = pyDecode (List.flatten chunks) := by
  induction chunks with
  | nil => rfl
  | cons c cs ih =>
    simp only [List.map_cons, List.flatten_cons]
    rw [pyDecode_append_of_valid c cs.flatten (h c (by simp)),
      ih (fun x hx => h x (by simp [hx]))]

/-- The `while "\n" in buffer` loop structure: the complete lines before
each newline, and the remainder kept in the buffer. -/
def extractLines : List Char → List (List Char) × List Char
  | [] => ([], [])
  | c :: rest =>
    let p := extractLines rest
    if c = '\n' then ([] :: p.1, p.2)
    else
      match p.1 with
      | l :: ls => ((c :: l) :: ls, p.2)
      | [] => ([], c :: p.2)

theorem extractLines_append (x y : List Char) :
    extractLines (x ++ y) =
      ((extractLines x).1 ++ (extractLines ((extractLines x).2 ++ y)).1,
        (extractLines ((extractLines x).2 ++ y)).2) := by
  induction x with
  | nil => rfl
  | cons c x ih =>
    show extractLines (c :: (x ++ y)) = _
    simp only [extractLines]
    rw [ih]
    by_cases hc : c = '\n'
    · rw [if_pos hc, if_pos hc]
      simp [List.cons_append]
    · rw [if_neg hc, if_neg hc]
      cases hA : (extractLines x).1 with
      | nil =>
        simp only [hA, List.nil_append]
        show _ = ((extractLines (c :: ((extractLines x).2 ++ y))).1,
          (extractLines (c :: ((extractLines x).2 ++ y))).2)
        simp only [extractLines]
        rw [if_neg hc]
      | cons l ls =>
        simp only [hA, List.cons_append]

/-- `dict.get` lifted to a JSON value (`None` for a non-dict). -/
def jvGet (v : JVal) (k : String) : Option JVal :=
  match v with
  | .obj fs => jGet fs k
  | _ => none

/-- The `for tc in delta["tool_calls"]` body (lines 1223–1239). -/
def applyTc (st : AggSt) (tc : JVal) : AggSt :=
  match tc with
  | .obj tfs =>
    let k : Option ℚ := match jGet tfs "index" with
      | some (.num q) => some q
      | _ => none
    let base := if st.toolCalls.any (fun p => p.1 = k) then st.toolCalls
      else st.toolCalls ++ [(k, ToolAcc.mk ((jGet tfs "id").getD (.str ""))
        ((jGet tfs "type").getD (.str "function")) "" "")]
    let upd : ToolAcc → ToolAcc := fun a =>
      let a := if jTruthy ((jGet tfs "id").getD .null) then
          { a with tid := (jGet tfs "id").getD .null }
        else a
      match jGet tfs "function" with
      | some (.obj ffs) =>
        let a := match jGet ffs "name" with
          | some (.str s) =>
            if s ≠ "" then { a with fname := a.fname ++ s } else a
          | _ => a
        match jGet ffs "arguments" with
        | some (.str s) =>
          if s ≠ "" then { a with fargs := a.fargs ++ s } else a
        | _ => a
      | _ => a
    { st with toolCalls :=
        base.map (fun p => if p.1 = k then (p.1, upd p.2) else p) }
  | _ => st

/-- Lines 1214–1239: `delta` handling for `choices[0]`. -/
def handleDelta (st : AggSt) (c0 : JVal) : AggSt :=
  let delta := (jvGet c0 "delta").getD (.obj [])
  let fin := match jvGet c0 "finish_reason" with
    | some v => some v
    | none => st.finish
  let st1 := { st with finish := fin }
  let st2 := match jvGet delta "content" with
    | some (.str s) => { st1 with content := st1.content ++ s }
    | _ => st1
  match jvGet delta "tool_calls" with
  | some (.arr tcs) => tcs.foldl applyTc st2
  | _ => st2

/-- `choices[0]` when `chunk_json.get("choices", [])` is truthy (a truthy
non-list would raise on the nested `.get`; modelled as skipped). -/
def chooseC0 (j : JVal) : Option JVal :=
  match jvGet j "choices" with
  | some (.arr (c0 :: _)) => some c0
  | _ => none

/-- Lines 1195–1242: one complete line popped off the buffer. -/
def handleLine (st : AggSt) (line0 : List Char) : AggSt :=
  let line := pyStrip line0
  if line.isEmpty then st
  else if listPrefixOf "data: ".data line then
    let ds := line.drop 6
    if ds = "[DONE]".data then st
    else
      match pyJsonLoads (String.mk ds) with
      | none => st
      | some j =>
        let st1 := match jvGet j "usage" with
          | some u => { st with usage := some u }
          | none => st
        match chooseC0 j with
        | some c0 => handleDelta st1 c0
        | none => st1
  else st

/-- The `delta.content` fragment a handled line contributes. -/
def deltaFrag (c0 : JVal) : String :=
  match jvGet ((jvGet c0 "delta").getD (.obj [])) "content" with
  | some (.str s) => s
  | _ => ""

def lineFrag (line0 : List Char) : String :=
  let line := pyStrip line0
  if line.isEmpty then ""
  else if listPrefixOf "data: ".data line then
    let ds := line.drop 6
    if ds = "[DONE]".data then ""
    else
      match pyJsonLoads (String.mk ds) with
      | none => ""
      | some j =>
        match chooseC0 j with
        | some c0 => deltaFrag c0
        | none => ""
  else ""

def fragsOf (ls : List (List Char)) : String :=
  ls.foldr (fun l acc => lineFrag l ++ acc) ""

def setBuf (st : AggSt) (b : List Char) : AggSt :=
  AggSt.mk st.content st.toolCalls st.finish st.usage b

theorem setBuf_content (st : AggSt) (b : List Char) :
    (setBuf st b).content = st.content := rfl

theorem setBuf_toolCalls (st : AggSt) (b : List Char) :
    (setBuf st b).toolCalls = st.toolCalls := rfl

theorem setBuf_finish (st : AggSt) (b : List Char) :
    (setBuf st b).finish = st.finish := rfl

theorem setBuf_usage (st : AggSt) (b : List Char) :
    (setBuf st b).usage = st.usage := rfl

theorem setBuf_buf (st : AggSt) (b : List Char) :
    (setBuf st b).buffer = b := rfl

/-- One `async for chunk` iteration at the text level: append to the
buffer, pop and handle every complete line, keep the remainder. -/
def processText (st : AggSt) (t : List Char) : AggSt :=
  setBuf ((extractLines (st.buffer ++ t)).1.foldl handleLine st)
    (extractLines (st.buffer ++ t)).2

def processChunk (st : AggSt) (c : List Nat) : AggSt :=
  processText st (pyDecode c)

/-- The whole stream loop over the received byte chunks (any unterminated
final line stays in the buffer and is never handled, as in the code). -/
def processBytes (st : AggSt) (chunks : List (List Nat)) : AggSt :=
  chunks.foldl processChunk st

def initAgg : AggSt := AggSt.mk "" [] none none []

theorem applyTc_content (st : AggSt) (tc : JVal) :
    (applyTc st tc).content = st.content := by
  cases tc <;> rfl

theorem applyTc_setBuf (st : AggSt) (b : List Char) (tc : JVal) :
    applyTc (setBuf st b) tc = setBuf (applyTc st tc) b := by
  cases tc <;> rfl

theorem foldl_applyTc_content (tcs : List JVal) :
    ∀ st : AggSt, (tcs.foldl applyTc st).content = st.content := by
  induction tcs with
  | nil => intro st; rfl
  | cons t ts ih => intro st; rw [List.foldl_cons, ih, applyTc_content]

theorem foldl_applyTc_setBuf (tcs : List JVal) (b : List Char) :
    ∀ st : AggSt, tcs.foldl applyTc (setBuf st b) =
      setBuf (tcs.foldl applyTc st) b := by
  induction tcs with
  | nil => intro st; rfl
  | cons t ts ih =>
    intro st
    rw [List.foldl_cons, applyTc_setBuf, ih]
    rfl

theorem handleDelta_content (st : AggSt) (c0 : JVal) :
    (handleDelta st c0).content = st.content ++ deltaFrag c0 := by
  unfold handleDelta deltaFrag
  dsimp only
  generalize jvGet ((jvGet c0 "delta").getD (JVal.obj [])) "content" = ct
  generalize jvGet ((jvGet c0 "delta").getD (JVal.obj [])) "tool_calls" = tc
  cases tc with
  | none => dsimp only; split <;> simp
  | some v =>
    cases v with
    | arr tcs =>
      dsimp only
      rw [foldl_applyTc_content]
      split <;> simp
    | null => dsimp only; split <;> simp
    | bool x => dsimp only; split <;> simp
    | num q => dsimp only; split <;> simp
    | str s => dsimp only; split <;> simp
    | obj fs => dsimp only; split <;> simp

theorem handleDelta_setBuf (st : AggSt) (b : List Char) (c0 : JVal) :
    handleDelta (setBuf st b) c0 = setBuf (handleDelta st c0) b := by
  unfold handleDelta
  dsimp only
  simp only [setBuf_content, setBuf_toolCalls, setBuf_finish, setBuf_usage,
    setBuf_buf]
  generalize jvGet ((jvGet c0 "delta").getD (JVal.obj [])) "content" = ct
  generalize jvGet ((jvGet c0 "delta").getD (JVal.obj [])) "tool_calls" = tc
  cases tc with
  | none => dsimp only; split <;> rfl
  | some v =>
    cases v with
    | arr tcs =>
      dsimp only
      rw [← foldl_applyTc_setBuf]
      congr 1
      split <;> rfl
    | null => dsimp only; split <;> rfl
    | bool x => dsimp only; split <;> rfl
    | num q => dsimp only; split <;> rfl
    | str s => dsimp only; split <;> rfl
    | obj fs => dsimp only; split <;> rfl

theorem handleLine_content (st : AggSt) (l : List Char) :
    (handleLine st l).content = st.content ++ lineFrag l := by
  unfold handleLine lineFrag
  dsimp only
  by_cases h1 : (pyStrip l).isEmpty = true
  · rw [if_pos h1, if_pos h1]
    simp
  · rw [if_neg h1, if_neg h1]
    by_cases h2 : listPrefixOf "data: ".data (pyStrip l) = true
    · rw [if_pos h2, if_pos h2]
      by_cases h3 : List.drop 6 (pyStrip l) = "[DONE]".data
      · rw [if_pos h3, if_pos h3]
        simp
      · rw [if_neg h3, if_neg h3]
        cases hj : pyJsonLoads (String.mk (List.drop 6 (pyStrip l))) with
        | none => simp
        | some j =>
          cases hu : jvGet j "usage" <;> cases hc0 : chooseC0 j <;>
            simp [hu, hc0, handleDelta_content]
    · rw [if_neg h2, if_neg h2]
      simp

theorem handleLine_setBuf (st : AggSt) (b : List Char) (l : List Char) :
    handleLine (setBuf st b) l = setBuf (handleLine st l) b := by
  unfold handleLine
  dsimp only
  by_cases h1 : (pyStrip l).isEmpty = true
  · rw [if_pos h1, if_pos h1]
  · rw [if_neg h1, if_neg h1]
    by_cases h2 : listPrefixOf "data: ".data (pyStrip l) = true
    · rw [if_pos h2, if_pos h2]
      by_cases h3 : List.drop 6 (pyStrip l) = "[DONE]".data
      · rw [if_pos h3, if_pos h3]
      · rw [if_neg h3, if_neg h3]
        cases hj : pyJsonLoads (String.mk (List.drop 6 (pyStrip l))) with
        | none => rfl
        | some j =>
          cases hu : jvGet j "usage" <;> cases hc0 : chooseC0 j
          · simp only [hu, hc0]
          · simp only [hu, hc0]
            rename_i c0
            exact handleDelta_setBuf st b c0
          · simp only [hu, hc0]
            rfl
          · simp only [hu, hc0]
            rename_i u c0
            exact handleDelta_setBuf (AggSt.mk st.content st.toolCalls
              st.finish (some u) st.buffer) b c0
    · rw [if_neg h2, if_neg h2]

theorem foldl_handleLine_content (ls : List (List Char)) :
    ∀ st : AggSt, (ls.foldl handleLine st).content =
      st.content ++ fragsOf ls := by
  induction ls with
  | nil => intro st; simp [fragsOf]
  | cons a as ih =>
    intro st
    rw [List.foldl_cons, ih, handleLine_content]
    show _ = st.content ++ (lineFrag a ++ fragsOf as)
    rw [String.append_assoc]

theorem foldl_handleLine_setBuf (ls : List (List Char)) (b : List Char) :
    ∀ st : AggSt, ls.foldl handleLine (setBuf st b) =
      setBuf (ls.foldl handleLine st) b := by
  induction ls with
  | nil => intro st; rfl
  | cons a as ih =>
    intro st
    rw [List.foldl_cons, handleLine_setBuf, ih]
    rfl

theorem processText_append (st : AggSt) (t1 t2 : List Char) :
    processText (processText st t1) t2 = processText st (t1 ++ t2) := by
  unfold processText
  rw [show st.buffer ++ (t1 ++ t2) = (st.buffer ++ t1) ++ t2 from
    (List.append_assoc _ _ _).symm]
  rw [extractLines_append (st.buffer ++ t1) t2]
  simp only [setBuf_buf]
  rw [List.foldl_append, foldl_handleLine_setBuf]
  rfl

theorem processBytes_text (chunks : List (List Nat)) :
    ∀ (st : AggSt) (t : List Char),
      processBytes (processText st t) chunks =
        processText st (t ++ List.flatten (chunks.map pyDecode)) := by
  induction chunks with
  | nil =>
    intro st t
    show processText st t = _
    rw [List.map_nil, List.flatten_nil, List.append_nil]
  | cons c cs ih =>
    intro st t
    show processBytes (processText (processText st t) (pyDecode c)) cs = _
    rw [processText_append, ih]
    rw [List.map_cons, List.flatten_cons, List.append_assoc]

theorem mem_insertAsc {z x : Option ℚ × ToolAcc} :
    ∀ l, z ∈ insertAsc x l → z = x ∨ z ∈ l := by
  intro l
  induction l with
  | nil =>
    intro h
    simp only [insertAsc, List.mem_singleton] at h
    exact Or.inl h
  | cons y ys ih =>
    intro h
    simp only [insertAsc] at h
    split at h
    · rcases List.mem_cons.mp h with h1 | h1
      · exact Or.inl h1
      · exact Or.inr h1
    · rcases List.mem_cons.mp h with h1 | h1
      · exact Or.inr (List.mem_cons.mpr (Or.inl h1))
      · rcases ih h1 with h2 | h2
        · exact Or.inl h2
        · exact Or.inr (List.mem_cons.mpr (Or.inr h2))

theorem insertAsc_sorted (x : Option ℚ × ToolAcc) :
    ∀ l, List.Sorted (fun p q => keyQ p.1 ≤ keyQ q.1) l →
      List.Sorted (fun p q => keyQ p.1 ≤ keyQ q.1) (insertAsc x l) := by
  intro l
  induction l with
  | nil => intro _; simp [insertAsc]
  | cons y ys ih =>
    intro hs
    rw [List.sorted_cons] at hs
    obtain ⟨hy, hys⟩ := hs
    simp only [insertAsc]
    split
    · rename_i hlt
      rw [List.sorted_cons]
      refine ⟨?_, List.sorted_cons.mpr ⟨hy, hys⟩⟩
      intro b hb
      rcases List.mem_cons.mp hb with h1 | h1
      · exact h1 ▸ le_of_lt hlt
      · exact le_trans (le_of_lt hlt) (hy b h1)
    · rename_i hge
      rw [List.sorted_cons]
      refine ⟨?_, ih hys⟩
      intro b hb
      rcases mem_insertAsc _ hb with h1 | h1
      · exact h1 ▸ le_of_not_lt hge
      · exact hy b h1

theorem sortToolsAsc_sorted_aux (l : List (Option ℚ × ToolAcc)) :
    ∀ acc, List.Sorted (fun p q => keyQ p.1 ≤ keyQ q.1) acc →
      List.Sorted (fun p q => keyQ p.1 ≤ keyQ q.1)
        (l.foldl (fun acc x => insertAsc x acc) acc) := by
  induction l with
  | nil => intro acc h; exact h
  | cons a as ih =>
    intro acc h
    rw [List.foldl_cons]
    exact ih _ (insertAsc_sorted a _ h)

/-- C2: For the openai SSE stream loop: (a) feeding the byte chunks after
any text prefix aggregates exactly the concatenation of the per-chunk
decodings — the chunking enters only through each chunk's own UTF-8
decoding; (b) the aggregated `content` is the concatenation, over the
complete `data: ` lines of the buffered text, of their `delta.content`
fragments; (c) the tool-call list ordering used by the final response
(`sorted(aggregated_tool_calls.keys())`) is ascending in the index key;
(d) the result is split-invariant across chunkings whose every chunk is
valid UTF-8 on its own — a split inside a multibyte character is NOT
invariant (each half decodes to U+FFFD per chunk), which is the
correction to the claim. -/
theorem stream_C2_amended :
    (∀ (st : AggSt) (t : List Char) (chunks : List (List Nat)),
      processBytes (processText st t) chunks =
        processText st (t ++ List.flatten (chunks.map pyDecode))) ∧
    (∀ (st : AggSt) (t : List Char),
      (processText st t).content =
        st.content ++ fragsOf (extractLines (st.buffer ++ t)).1) ∧
    (∀ l : List (Option ℚ × ToolAcc),
      List.Sorted (fun p q => keyQ p.1 ≤ keyQ q.1) (sortToolsAsc l)) ∧
    (∀ chunks1 chunks2 : List (List Nat),
      (∀ c ∈ chunks1, validU8 c = true) →
      (∀ c ∈ chunks2, validU8 c = true) →
      List.flatten chunks1 = List.flatten chunks2 →
      processBytes initAgg chunks1 = processBytes initAgg chunks2) := by
  refine ⟨fun st t chunks => processBytes_text chunks st t, ?_, ?_, ?_⟩
  · intro st t
    show ((extractLines (st.buffer ++ t)).1.foldl handleLine st).content = _
    rw [foldl_handleLine_content]
  · intro l
    exact sortToolsAsc_sorted_aux l [] (by simp)
  · intro chunks1 chunks2 hv1 hv2 hj
    have e1 : ∀ chunks : List (List Nat), processBytes initAgg chunks =
        processText initAgg (List.flatten (chunks.map pyDecode)) := by
      intro chunks
      have h1 := processBytes_text chunks initAgg []
      rw [show processText initAgg [] = initAgg from rfl,
        List.nil_append] at h1
      exact h1
    rw [e1 chunks1, e1 chunks2, pyDecode_join chunks1 hv1,
      pyDecode_join chunks2 hv2, hj]

def asciiBytes (s : String) : List Nat := s.data.map (fun c => c.toNat)

/-- Witness for C2 at concrete inputs: a split inside the `data: ` prefix
(both chunks plain ASCII, hence valid UTF-8) cannot change the result. -/
theorem stream_C2_amended_witness :
    processBytes initAgg [asciiBytes "da", asciiBytes "ta: [DONE]\n"] =
      processBytes initAgg [asciiBytes "data: [DONE]\n"] :=
  stream_C2_amended.2.2.2 [asciiBytes "da", asciiBytes "ta: [DONE]\n"]
    [asciiBytes "data: [DONE]\n"] (by decide) (by decide) (by decide)

def ssePre : List Nat :=
  asciiBytes "data: \x7b\"choices\":[\x7b\"delta\":\x7b\"content\":\""

def ssePost : List Nat := asciiBytes "\"\x7d\x7d]\x7d" ++ [10]

def sseFull : List Nat := ssePre ++ [195, 169] ++ ssePost

def sseSplitA : List Nat := ssePre ++ [195]

def sseSplitB : List Nat := 169 :: ssePost

/-- Counterexample to C2 as claimed: the same SSE bytes, whole versus
split between the two bytes 0xC3 0xA9 of `é`, aggregate different
contents — `é` unsplit, two U+FFFD replacement characters when split —
because each chunk is decoded on its own. -/
theorem stream_C2_counterexample :
    sseSplitA ++ sseSplitB = sseFull ∧
    (processBytes initAgg [sseFull]).content = "é" ∧
    (processBytes initAgg [sseSplitA, sseSplitB]).content = "��" :=
  ⟨by simp [sseSplitA, sseSplitB, sseFull, ssePre, ssePost], rfl, rfl⟩

/-! ## C7: the retry-round loop and its trace (`route_request`,
lines 631–765 and 857–880)

The loop skeleton: `for round_idx in range(max_rounds)` over the sorted
model list, skipping entries in `excluded_models` (for the whole request)
or `round_failed_models` (for the current round), and entries in active
cooldown.  An attempt logs `MODEL_CALL_START`; success returns at once, a
failure logs `MODEL_FAIL`, updates the exclusion sets through the same
substring classification verified for C1 (`classifyExclusion`), bumps
`retry_count` and continues.  Only when both loops finish is `ALL_FAILED`
logged.  External effects are oracles: `outcome k` is the result of the
k-th actual upstream attempt (`none` = success, `some msg` = the raised
message), `cool round i` the cooldown test for list position `i` (it
reads the mutable health store and the wall clock).  `REQ_RECEIVED` and
the classifier/stream events (`ROUTER_*`, `FIRST_TOKEN`, `FULL_RESPONSE`)
carry none of the three stages quantified over here, so the trace starts
empty and success is recorded as `fullResp`. -/

inductive TraceEv where
  | callStart (round : Nat) (model : String)
  | modelFail (round : Nat) (model : String)
  | fullResp (round : Nat) (model : String)
  | allFailed

structure RouteSt where
  events : List TraceEv
  excluded : List String
  retryCnt : Nat

/-- The inner `for model_id_entry in models` loop of one round. -/
def runModels (outcome : Nat → Option (List Char)) (cool : Nat → Nat → Bool)
    (round : Nat) :
    List (Nat × String) → RouteSt → List String →
      RouteSt × List String × Option String
  | [], st, rf => (st, rf, none)
  | (i, m) :: rest, st, rf =>
    if st.excluded.contains m || rf.contains m then
      runModels outcome cool round rest st rf
    else if cool round i then
      runModels outcome cool round rest st rf
    else
      let st1 := RouteSt.mk (st.events ++ [.callStart round m]) st.excluded
        st.retryCnt
      match outcome st.retryCnt with
      | none =>
        (RouteSt.mk (st1.events ++ [.fullResp round m]) st1.excluded
          st1.retryCnt, rf, some m)
      | some msg =>
        let exc2 := match classifyExclusion msg with
          | .hard => st1.excluded ++ [m]
          | _ => st1.excluded
        let rf2 := match classifyExclusion msg with
          | .soft => rf ++ [m]
          | _ => rf
        runModels outcome cool round rest
          (RouteSt.mk (st1.events ++ [.modelFail round m]) exc2
            (st1.retryCnt + 1)) rf2

/-- The outer `for round_idx in range(max_rounds)` loop; when it ends
without a success, `ALL_FAILED` is logged (lines 857–880). -/
def runRounds (outcome : Nat → Option (List Char)) (cool : Nat → Nat → Bool)
    (models : List (Nat × String)) :
    Nat → Nat → RouteSt → RouteSt × Option String
  | 0, _, st =>
    (RouteSt.mk (st.events ++ [.allFailed]) st.excluded st.retryCnt, none)
  | n + 1, round, st =>
    match runModels outcome cool round models st [] with
    | (st2, _, some m) => (st2, some m)
    | (st2, _, none) => runRounds outcome cool models n (round + 1) st2

/-- `route_request` from the start of the rounds loop (`max_rounds` is
floored at 1, line 625). -/
def routeSim (outcome : Nat → Option (List Char)) (cool : Nat → Nat → Bool)
    (models : List String) (maxRounds : Nat) : RouteSt × Option String :=
  runRounds outcome cool models.enum (max 1 maxRounds) 0 (RouteSt.mk [] [] 0)

theorem runModels_spec (outcome : Nat → Option (List Char))
    (cool : Nat → Nat → Bool) (round : Nat) :
    ∀ (ms : List (Nat × String)) (st : RouteSt) (rf : List String),
      ∃ d, (runModels outcome cool round ms st rf).1.events =
          st.events ++ d ∧
        TraceEv.allFailed ∉ d ∧
        ((runModels outcome cool round ms st rf).2.2 = none →
          ∀ r m, TraceEv.callStart r m ∈ d → TraceEv.modelFail r m ∈ d) := by
  intro ms
  induction ms with
  | nil =>
    intro st rf
    exact ⟨[], by simp [runModels], by simp, fun _ _ _ h => absurd h
      (List.not_mem_nil _)⟩
  | cons p rest ih =>
    intro st rf
    obtain ⟨i, m⟩ := p
    show ∃ d, (runModels outcome cool round ((i, m) :: rest) st rf).1.events =
      _ ∧ _
    rw [runModels]
    by_cases h1 : (st.excluded.contains m || rf.contains m) = true
    · rw [if_pos h1]
      exact ih st rf
    · rw [if_neg h1]
      by_cases h2 : cool round i = true
      · rw [if_pos h2]
        exact ih st rf
      · rw [if_neg h2]
        cases ho : outcome st.retryCnt with
        | none =>
          refine ⟨[.callStart round m, .fullResp round m], by simp, by simp,
            ?_⟩
          intro hres
          simp at hres
        | some msg =>
          obtain ⟨d, hd, hnf, hmat⟩ := ih
            (RouteSt.mk (st.events ++ [.callStart round m] ++
              [.modelFail round m])
              (match classifyExclusion msg with
                | .hard => st.excluded ++ [m]
                | _ => st.excluded)
              (st.retryCnt + 1)) ((match classifyExclusion msg with
                | .soft => rf ++ [m]
                | _ => rf))
          refine ⟨[.callStart round m, .modelFail round m] ++ d, ?_, ?_, ?_⟩
          · rw [hd]
            simp
          · intro h
            rcases List.mem_append.mp h with h | h
            · rcases List.mem_cons.mp h with h | h
              · exact TraceEv.noConfusion h
              · rcases List.mem_cons.mp h with h | h
                · exact TraceEv.noConfusion h
                · exact absurd h (List.not_mem_nil _)
            · exact hnf h
          · intro hres r m2 hmem
            rcases List.mem_append.mp hmem with h | h
            · rcases List.mem_cons.mp h with h | h
              · obtain ⟨hr, hm⟩ := TraceEv.callStart.inj h
                subst hr
                subst hm
                exact List.mem_append_left _ (by simp)
              · rcases List.mem_cons.mp h with h | h
                · exact TraceEv.noConfusion h
                · exact absurd h (List.not_mem_nil _)
            · exact List.mem_append_right _ (hmat hres r m2 h)

theorem runRounds_spec (outcome : Nat → Option (List Char))
    (cool : Nat → Nat → Bool) (models : List (Nat × String)) :
    ∀ (n round : Nat) (st : RouteSt),
      ∃ d, (runRounds outcome cool models n round st).1.events =
          st.events ++ d ∧
        ((runRounds outcome cool models n round st).2 = none →
          ∃ d0, d = d0 ++ [TraceEv.allFailed] ∧ TraceEv.allFailed ∉ d0 ∧
            (∀ r m, TraceEv.callStart r m ∈ d0 →
              TraceEv.modelFail r m ∈ d0)) ∧
        (∀ m, (runRounds outcome cool models n round st).2 = some m →
          TraceEv.allFailed ∉ d) := by
  intro n
  induction n with
  | zero =>
    intro round st
    refine ⟨[.allFailed], by simp [runRounds], ?_, ?_⟩
    · intro _
      exact ⟨[], by simp, by simp, fun _ _ h => absurd h (List.not_mem_nil _)⟩
    · intro m hm
      simp [runRounds] at hm
  | succ k ih =>
    intro round st
    obtain ⟨d1, hd1, hnf1, hmat1⟩ := runModels_spec outcome cool round
      models st []
    show ∃ d, (runRounds outcome cool models (k + 1) round st).1.events =
      _ ∧ _
    rw [runRounds]
    cases hres : (runModels outcome cool round models st []).2.2 with
    | some m =>
      rw [show (runModels outcome cool round models st []) =
        ((runModels outcome cool round models st []).1,
          (runModels outcome cool round models st []).2.1, some m) from by
          rw [← hres]]
      refine ⟨d1, hd1, ?_, fun _ _ => hnf1⟩
      intro hnone
      simp at hnone
    | none =>
      rw [show (runModels outcome cool round models st []) =
        ((runModels outcome cool round models st []).1,
          (runModels outcome cool round models st []).2.1, none) from by
          rw [← hres]]
      obtain ⟨d2, hd2, hnone2, hsome2⟩ := ih (round + 1)
        (runModels outcome cool round models st []).1
      refine ⟨d1 ++ d2, ?_, ?_, ?_⟩
      · rw [hd2, hd1, List.append_assoc]
      · intro hnone
        obtain ⟨d0, hd0, hnf0, hmat0⟩ := hnone2 hnone
        refine ⟨d1 ++ d0, by rw [hd0, List.append_assoc], ?_, ?_⟩
        · simp only [List.mem_append]
          rintro (h | h)
          · exact hnf1 h
          · exact hnf0 h
        · intro r m hmem
          simp only [List.mem_append] at hmem ⊢
          rcases hmem with h | h
          · exact Or.inl (hmat1 hres r m h)
          · exact Or.inr (hmat0 r m h)
      · intro m hm
        simp only [List.mem_append]
        rintro (h | h)
        · exact hnf1 h
        · exact hsome2 m hm h

/-- C7: in the rounds loop of `route_request`, for every outcome and
cooldown oracle, every model list and every round budget: when no attempt
succeeds, the trace is some prefix followed by a single terminal
`ALL_FAILED`, the prefix contains no `ALL_FAILED`, and every attempted
(round, model) pair in it (its `MODEL_CALL_START`) has emitted a matching
`MODEL_FAIL`; when some attempt succeeds, the response is returned at once
and `ALL_FAILED` never appears in the trace. -/
theorem route_trace_C7 (outcome : Nat → Option (List Char))
    (cool : Nat → Nat → Bool) (models : List String) (maxRounds : Nat) :
    ((routeSim outcome cool models maxRounds).2 = none →
      ∃ pre, (routeSim outcome cool models maxRounds).1.events =
          pre ++ [TraceEv.allFailed] ∧
        TraceEv.allFailed ∉ pre ∧
        (∀ r m, TraceEv.callStart r m ∈ pre →
          TraceEv.modelFail r m ∈ pre)) ∧
    (∀ m, (routeSim outcome cool models maxRounds).2 = some m →
      TraceEv.allFailed ∉ (routeSim outcome cool models maxRounds).1.events) := by
  obtain ⟨d, hd, hnone, hsome⟩ := runRounds_spec outcome cool models.enum
    (max 1 maxRounds) 0 (RouteSt.mk [] [] 0)
  constructor
  · intro hres
    obtain ⟨d0, hd0, hnf0, hmat0⟩ := hnone hres
    refine ⟨d0, ?_, hnf0, hmat0⟩
    show (routeSim outcome cool models maxRounds).1.events = _
    rw [show (routeSim outcome cool models maxRounds).1.events =
      (runRounds outcome cool models.enum (max 1 maxRounds) 0
        (RouteSt.mk [] [] 0)).1.events from rfl, hd, hd0]
    rfl
  · intro m hm
    rw [show (routeSim outcome cool models maxRounds).1.events =
      (runRounds outcome cool models.enum (max 1 maxRounds) 0
        (RouteSt.mk [] [] 0)).1.events from rfl, hd]
    intro hmem
    rcases List.mem_append.mp hmem with h | h
    · exact absurd h (List.not_mem_nil _)
    · exact hsome m hm h

/-- Witness for C7: a run where the single model fails with an upstream
500 in its only round, and a run where it succeeds at once. -/
theorem route_trace_C7_witness :
    (∃ pre, (routeSim (fun _ => some "Upstream Error: 500 - boom".data)
        (fun _ _ => false) ["m1"] 1).1.events =
        pre ++ [TraceEv.allFailed] ∧
      TraceEv.allFailed ∉ pre ∧
      (∀ r m, TraceEv.callStart r m ∈ pre →
        TraceEv.modelFail r m ∈ pre)) ∧
    TraceEv.allFailed ∉ (routeSim (fun _ => none)
      (fun _ _ => false) ["m1"] 1).1.events :=
  ⟨(route_trace_C7 (fun _ => some "Upstream Error: 500 - boom".data)
      (fun _ _ => false) ["m1"] 1).1 rfl,
   (route_trace_C7 (fun _ => none) (fun _ _ => false) ["m1"] 1).2 "m1" rfl⟩

end RouterEngine

